import Mathlib

/-!
Verification of the workflow-orchestration core of the LeadPilot SDR agent.

The Python sources are shallowly embedded: session-state values become the
inductive `Val`, the per-run `SessionState` becomes an association list, and
each guarded tool, router, gate and broker operation becomes a total Lean
function transcribed from its Python definition.  External capabilities
(sending the mail, placing the call) are passed in as oracle values and the
number of capability invocations is returned explicitly, so at-most-once
properties are statements about a counter.
-/

set_option linter.unusedVariables false

/-- A Python runtime value as stored in the per-run session state
(`ctx.session.state` / `tool_context.state`): `None`, booleans, strings,
integers, dicts and lists. -/
inductive Val where
  | vNone
  | vBool (b : Bool)
  | vStr (s : String)
  | vInt (n : Int)
  | vDict (kvs : List (String × Val))
  | vList (xs : List Val)
deriving Repr

/-- Association-list lookup with first-binding-wins semantics; used both for
the session state and for Python dict values. -/
def alistGet {β : Type} : List (String × β) → String → Option β
  | [], _ => none
  | (k, v) :: rest, key => if k = key then some v else alistGet rest key

/-- Dict update `d[k] = v`: the new binding shadows any older one. -/
def alistSet {β : Type} (l : List (String × β)) (k : String) (v : β) :
    List (String × β) :=
  (k, v) :: l

/-- `SessionState`: the per-run mutable key/value context. -/
abbrev SessionState := List (String × Val)

/-- Python truthiness (`if value:`) of the modelled values. -/
def truthy : Val → Bool
  | .vNone => false
  | .vBool b => b
  | .vStr s => !(s == "")
  | .vInt n => !(n == 0)
  | .vDict kvs => !kvs.isEmpty
  | .vList xs => !xs.isEmpty

/-- Python `value == lit` for a string literal `lit`: values of any other
runtime type compare unequal to a string. -/
def valEqStr (v : Val) (lit : String) : Bool :=
  match v with
  | .vStr s => s == lit
  | _ => false

/-- Python `isinstance(value, dict)`. -/
def isDict : Val → Bool
  | .vDict _ => true
  | _ => false

/-- Python `value.get(k)` on a dict value (`none` if the key is missing or the
value is not a dict; the code only calls it after an `isinstance` check). -/
def dictGet (v : Val) (k : String) : Option Val :=
  match v with
  | .vDict kvs => alistGet kvs k
  | _ => none

/-- Python `len` for the sized values (`len` of the remaining kinds raises a
`TypeError` in Python and is never reached on the modelled paths). -/
def vlen : Val → Nat
  | .vStr s => s.length
  | .vDict kvs => kvs.length
  | .vList xs => xs.length
  | _ => 0

/-! ## Phone-number validation (src/sdr/sdr/callbacks.py, lines 227-269) -/

/-- The result dict of `validate_us_phone_number`: keys `valid`, `error`,
`normalized`. -/
structure PhoneValidation where
  valid : Bool
  error : Option String
  normalized : Option String
deriving Repr, DecidableEq

/-- `re.sub(r"\D", "", phone_number)`: keep only the digits. -/
def digitsOnly (s : String) : List Char := s.data.filter Char.isDigit

/-- The trailing area-code check of `validate_us_phone_number`:
`area_code = digits_only[-10:-7]` is rejected when it starts with `0` or `1`
(error-message strings abbreviated; no theorem depends on them). -/
def usAreaCodeCheck (digits : List Char) (normalized : String) : PhoneValidation :=
  let area := (digits.drop (digits.length - 10)).take 3
  if area.head? = some '0' ∨ area.head? = some '1' then
    { valid := false
      error := some "Invalid area code. Area codes cannot start with 0 or 1."
      normalized := none }
  else
    { valid := true, error := none, normalized := some normalized }

/-- `validate_us_phone_number` from src/sdr/sdr/callbacks.py: ten digits get a
`+1` prefix, eleven digits starting with `1` get a `+` prefix, anything else
is invalid; then the area code is checked. -/
def validate_us_phone_number (phone_number : String) : PhoneValidation :=
  let digits := digitsOnly phone_number
  if digits.length = 10 then
    usAreaCodeCheck digits (String.mk ('+' :: '1' :: digits))
  else if digits.length = 11 ∧ digits.head? = some '1' then
    usAreaCodeCheck digits (String.mk ('+' :: digits))
  else
    { valid := false
      error := some "Invalid US phone number format. Expected 10 or 11 digits."
      normalized := none }

/-- The last ten digits of the input's digit-only form (what the claim calls
"the ten digits"; stated from the claim's words for the comparison theorem). -/
def usLastTen (s : String) : List Char :=
  (digitsOnly s).drop ((digitsOnly s).length - 10)

/-- The claim's acceptance condition, stated from the claim's words: the
digit-only form has ten digits (or eleven beginning with `1`) and the first of
the last ten digits starts with neither `0` nor `1`. -/
def usPhoneSpecOk (s : String) : Prop :=
  ((digitsOnly s).length = 10 ∨
    ((digitsOnly s).length = 11 ∧ (digitsOnly s).head? = some '1'))
  ∧ ¬ ((usLastTen s).head? = some '0' ∨ (usLastTen s).head? = some '1')

instance (s : String) : Decidable (usPhoneSpecOk s) := by
  unfold usPhoneSpecOk; infer_instance

/-! ## Conditional router (src/sdr/sdr/sub_agents/sdr_router.py) -/

/-- Observable outcome of one `SDRRouter._run_async_impl` run: the error
events yielded by the router itself and how many times each sub-agent branch
was run. -/
structure RouterRun where
  errorEvents : List String
  emailAgentRuns : Nat
  saveAgentRuns : Nat
deriving Repr, DecidableEq

/-- `SDRRouter._run_async_impl`: reads `call_category` via `state.get`, which
yields Python `None` both when the key is absent and when the stored value is
`None`; in exactly those cases the router yields the explicit failure event
and runs no branch; otherwise Python truthiness of the value selects the
branch (email agent on truthy, save-to-database agent on falsy). -/
def sdrRouterRun (st : SessionState) : RouterRun :=
  match alistGet st "call_category" with
  | none =>
    { errorEvents := ["Outreach failed: Classifier result missing in session state."]
      emailAgentRuns := 0
      saveAgentRuns := 0 }
  | some .vNone =>
    { errorEvents := ["Outreach failed: Classifier result missing in session state."]
      emailAgentRuns := 0
      saveAgentRuns := 0 }
  | some v =>
    if truthy v then
      { errorEvents := [], emailAgentRuns := 1, saveAgentRuns := 0 }
    else
      { errorEvents := [], emailAgentRuns := 0, saveAgentRuns := 1 }

/-! ## Loop gate (spec_status_checker_agent.py) and the refinement loop -/

/-- `SpecStatusCheckerAgent._run_async_impl`: the `escalate` flag of the
emitted event.  `status = state.get("quality_status", "fail")`; a falsy status
is replaced by `"fail"`; escalate iff `status == "pass"`. -/
def specStatusCheckerEscalate (st : SessionState) : Bool :=
  let status := (alistGet st "quality_status").getD (.vStr "fail")
  let status := if truthy status then status else .vStr "fail"
  valEqStr status "pass"

/-- Modelled from the spec: the `LoopAgent` composite driving
`spec_creator_agent` (the loop itself lives in the `google.adk` framework, not
in this repository; only its instantiation with `max_iterations=3` and the
gate agent do).  `body i st` is the session state after the refine and
quality-check children of iteration `i`; after each iteration the gate runs
and the loop stops when it escalates or when the iteration budget `n` is
exhausted.  Returns the final state and the number of iterations executed. -/
def loopGo (body : Nat → SessionState → SessionState) :
    Nat → Nat → SessionState → SessionState × Nat
  | 0, i, st => (st, i)
  | n + 1, i, st =>
    let st' := body i st
    if specStatusCheckerEscalate st' then (st', i + 1)
    else loopGo body n (i + 1) st'

/-- The `spec_creator_agent` loop with `max_iterations = 3`
(specification_creator_agent.py). -/
def specCreatorLoopRun (body : Nat → SessionState → SessionState)
    (st : SessionState) : SessionState × Nat :=
  loopGo body 3 0 st

/-- The state after `k` full loop-body iterations. -/
def loopTraj (body : Nat → SessionState → SessionState) (st : SessionState) :
    Nat → SessionState
  | 0 => st
  | k + 1 => body k (loopTraj body st k)

/-! ## Human Interaction Broker (human_creation_tool.py) -/

inductive RequestStatus where
  | pending
  | completed
  | cancelled
deriving Repr, DecidableEq

/-- The `HumanRequest` dataclass (the `created_at` timestamp is omitted: no
theorem depends on it). -/
structure HumanRequest where
  prompt : String
  status : RequestStatus
  url_response : Option String
deriving Repr, DecidableEq

/-- `HumanInteractionManager._pending_requests`: request id → request. -/
abbrev Registry := List (String × HumanRequest)

/-- `HumanInteractionManager.create_request` (the fresh uuid is passed in). -/
def createRequest (reg : Registry) (rid : String) (prompt : String) : Registry :=
  alistSet reg rid { prompt := prompt, status := .pending, url_response := none }

/-- `HumanInteractionManager.update_request`: only mutates an id that is
present; sets status completed and stores the url. -/
def updateRequest (reg : Registry) (rid : String) (url : String) : Registry :=
  match alistGet reg rid with
  | some req => alistSet reg rid { req with status := .completed, url_response := some url }
  | none => reg

/-- `HumanInteractionManager.cancel_request`: only mutates an id that is
present; sets status cancelled. -/
def cancelRequest (reg : Registry) (rid : String) : Registry :=
  match alistGet reg rid with
  | some req => alistSet reg rid { req with status := .cancelled }
  | none => reg

/-- One pass of the poll loop of `wait_for_human_response` over a registry
that does not change during the wait (the request is never resolved by a
concurrent `submit_human_response`).  `n` counts the remaining 1-second
sleeps before `current_time - start_time > timeout` fires; the status checks
run before the timeout check, in source order. -/
def waitPoll (reg : Registry) (rid : String) : Nat → Option String × Registry
  | 0 =>
    match alistGet reg rid with
    | none => (none, reg)
    | some req =>
      match req.status with
      | .completed => (req.url_response, reg)
      | .cancelled => (none, reg)
      | .pending => (none, cancelRequest reg rid)
  | n + 1 =>
    match alistGet reg rid with
    | none => (none, reg)
    | some req =>
      match req.status with
      | .completed => (req.url_response, reg)
      | .cancelled => (none, reg)
      | .pending => waitPoll reg rid n

/-- `wait_for_human_response(request_id, timeout)` for a request that is never
resolved during the wait: the loop begins at elapsed time 0 and the timeout
check `current - start > timeout` first fires after `timeout + 1` sleeps. -/
def wait_for_human_response (reg : Registry) (rid : String) (timeout : Nat) :
    Option String × Registry :=
  waitPoll reg rid (timeout + 1)

/-- `submit_human_response(request_id, url)`: resolves a pending request,
returns failure and mutates nothing when the id is unknown or the request is
no longer pending. -/
def submit_human_response (reg : Registry) (rid : String) (url : String) :
    Bool × Registry :=
  match alistGet reg rid with
  | some req =>
    if req.status = .pending then (true, updateRequest reg rid url)
    else (false, reg)
  | none => (false, reg)

/-- The broker's process-wide mutable state: the pending-request registry and
`HumanInteractionManager._active_sessions`. -/
structure Broker where
  requests : Registry
  activeSessions : List String
deriving Repr

/-- The dedup key `f"website_creation_{hash(prompt) % 1000000}"`; Lean's
`String.hash` stands in for Python's `hash` (any deterministic hash gives the
property the theorems use: equal prompts map to equal keys). -/
def sessionIdOf (prompt : String) : String :=
  "website_creation_" ++ toString ((String.hash prompt).toNat % 1000000)

/-- How the entry phase of `human_creation` ends. -/
inductive EntryOutcome where
  | cachedUrl (v : Val)
  | duplicate (result : Val)
  | proceeding (requestId : String)
deriving Repr

/-- Result of the entry phase of `human_creation`: the outcome, the broker
state afterwards, and the number of outbound UI notifications produced. -/
structure EntryResult where
  outcome : EntryOutcome
  broker : Broker
  notifications : Nat
deriving Repr

/-- The entry phase of `human_creation` (human_creation_tool.py, lines
163-217): everything up to the call of `wait_for_human_response`.  `newId`
stands for the fresh uuid `create_request` would mint; `notifications` counts
calls of `send_ui_notification` (one logical outbound notification per call;
its internal connection retries are not modelled).  A non-empty
`website_preview_link` short-circuits first; an active dedup session then
sleeps 2 seconds, re-checks the state, and returns without creating a request
or notifying; otherwise the session is marked active, the request is created
and exactly one notification goes out. -/
def humanCreationEntry (newId : String) (st : SessionState) (broker : Broker)
    (prompt : String) : EntryResult :=
  let existing := (alistGet st "website_preview_link").getD (.vStr "")
  if truthy existing then
    { outcome := .cachedUrl existing, broker := broker, notifications := 0 }
  else
    let sid := sessionIdOf prompt
    if broker.activeSessions.contains sid then
      let updated := (alistGet st "website_preview_link").getD (.vStr "")
      let res :=
        if truthy updated then updated
        else .vStr "Duplicate request detected. Please wait for the existing request to complete."
      { outcome := .duplicate res, broker := broker, notifications := 0 }
    else
      let broker1 : Broker := { broker with activeSessions := sid :: broker.activeSessions }
      let broker2 : Broker := { broker1 with requests := createRequest broker1.requests newId prompt }
      { outcome := .proceeding newId, broker := broker2, notifications := 1 }

/-! ## Idempotency guard (gmail_service_account_tool.py, callbacks.py) -/

/-- Result of one guarded tool invocation: the returned value, the session
state afterwards, and how many times the underlying capability ran. -/
structure GuardedCallResult where
  result : Val
  state : SessionState
  capabilityCalls : Nat
deriving Repr

/-- The cached-success test at the top of `send_email_with_attachment`:
`existing and isinstance(existing, dict) and existing.get("status") == "success"`
where `existing = state.get("email_sent_result", "")`. -/
def cachedEmailSuccess (st : SessionState) : Bool :=
  let existing := (alistGet st "email_sent_result").getD (.vStr "")
  truthy existing && isDict existing
    && (dictGet existing "status").any (fun v => valEqStr v "success")

/-- The argument validation of `send_email_with_attachment`: a truthy dict
whose `to` entry is truthy. -/
def validEmailArgs (crafted_email : Val) : Bool :=
  (truthy crafted_email && isDict crafted_email)
    && truthy ((dictGet crafted_email "to").getD .vNone)

/-- `send_email_with_attachment` (gmail_service_account_tool.py, lines
223-281).  `sendResult` is the value the underlying `send_email` capability
would return (the capability does network I/O and is the oracle here);
`capabilityCalls` counts its invocations.  Error-message strings are
abbreviated; no theorem depends on them. -/
def send_email_with_attachment (sendResult : Val) (crafted_email : Val)
    (st : SessionState) : GuardedCallResult :=
  let existing := (alistGet st "email_sent_result").getD (.vStr "")
  if truthy existing && isDict existing
      && (dictGet existing "status").any (fun v => valEqStr v "success") then
    { result := existing, state := st, capabilityCalls := 0 }
  else if !(truthy crafted_email && isDict crafted_email) then
    { result := .vDict [("status", .vStr "failed"),
        ("error", .vStr "Invalid crafted_email format. Must be a dict with to, subject, and body.")]
      state := st
      capabilityCalls := 0 }
  else if !(truthy ((dictGet crafted_email "to").getD .vNone)) then
    { result := .vDict [("status", .vStr "failed"),
        ("error", .vStr "Missing required to field in crafted_email.")]
      state := st
      capabilityCalls := 0 }
  else
    let st' :=
      if (dictGet sendResult "status").any (fun v => valEqStr v "success") then
        alistSet st "email_sent_result" sendResult
      else st
    { result := sendResult, state := st', capabilityCalls := 1 }

/-- `prevent_duplicate_call_callback` (callbacks.py, lines 317-374).  The two
source lookups (`tool_context.state` and `tool_context.session.state`) read
the same per-run session state in ADK and are modelled as one lookup.  Returns
`some r` when the framework must skip the tool call and use `r` as its
response (`{"result": call_result}` in the source). -/
def prevent_duplicate_call_callback (toolName : String) (st : SessionState) :
    Option Val :=
  if toolName != "phone_call_tool" && toolName != "phone_call_tool_test" then none
  else
    match alistGet st "call_result" with
    | some cr =>
      if isDict cr then
        if (dictGet cr "status").any
            (fun v => valEqStr v "done" || valEqStr v "completed") then
          some (.vDict [("result", cr)])
        else
          let transcript := (dictGet cr "transcript").getD (.vList [])
          if truthy transcript && decide (0 < vlen transcript) then
            some (.vDict [("result", cr)])
          else none
      else none
    | none => none

/-- A guarded invocation of the phone tool as the program wires it.  The
agent's tool is `FunctionTool(func=phone_call)` (phone_call.py, line 397), so
the `tool.name` the framework hands the before-tool callback is the
function's name, `"phone_call"` — agent_executor.py line 263 matches emitted
function calls against exactly that name.  The callback could in principle
short-circuit with a cached result; otherwise the capability (oracle
`callResult`) runs and its result is persisted under `call_result`.  The
persistence write is the enclosing agent's `output_key="call_result"`
binding (outreach_caller_agent.py); the write itself happens in the
`google.adk` framework and is modelled from the spec: on success the result
is persisted under the per-tool key. -/
def guardedPhoneCall (callResult : Val) (st : SessionState) : GuardedCallResult :=
  match prevent_duplicate_call_callback "phone_call" st with
  | some cached => { result := cached, state := st, capabilityCalls := 0 }
  | none =>
    { result := callResult
      state := alistSet st "call_result" callResult
      capabilityCalls := 1 }

/-! ## Defensive JSON parsing (`safe_json_parse`, callbacks.py lines 69-82 and
the identical inner copy at lines 153-166) -/

/-- Python regex `\s` over the characters that occur here. -/
def isWsChar (c : Char) : Bool :=
  c = ' ' || c = '\t' || c = '\n' || c = '\r' || c = '\x0c' || c = '\x0b'

/-- Drop leading whitespace. -/
def skipWs (cs : List Char) : List Char := cs.dropWhile isWsChar

/-- Python `str.strip()` (also the effect of the greedy `\s*` borders around
the lazy regex group). -/
def trimChars (cs : List Char) : List Char :=
  ((cs.dropWhile isWsChar).reverse.dropWhile isWsChar).reverse

/-- Does the text start with three backticks? -/
def startsTriple (cs : List Char) : Bool :=
  decide (cs.take 3 = ['`', '`', '`'])

/-- Split at the first occurrence of three consecutive backticks: returns the
text strictly before it and the text strictly after it. -/
def splitAtTriple : List Char → Option (List Char × List Char)
  | [] => none
  | c :: r =>
    if startsTriple (c :: r) then some ([], r.drop 2)
    else
      match splitAtTriple r with
      | some (b, a) => some (c :: b, a)
      | none => none

/-- Is there an occurrence of three consecutive backticks? -/
def hasTriple : List Char → Bool
  | [] => false
  | c :: r => startsTriple (c :: r) || hasTriple r

/-- Does the text start with the literal opening fence (three backticks then
`json`)? -/
def startsJsonFence (cs : List Char) : Bool :=
  decide (cs.take 7 = ['`', '`', '`', 'j', 's', 'o', 'n'])

/-- Model of `re.search` with the source pattern (three backticks, `json`,
`\s*`, a lazy any-character group, `\s*`, three backticks): the match starts
at the leftmost opening fence that is followed, anywhere later, by a closing
triple of backticks; the greedy whitespace borders and the lazy group make the
captured group the text strictly between the opening fence and the first
subsequent backtick triple, with surrounding whitespace stripped. -/
def regexFenceGroup : List Char → Option (List Char)
  | [] => none
  | c :: r =>
    if startsJsonFence (c :: r) then
      match splitAtTriple ((c :: r).drop 7) with
      | some (before, _) => some (trimChars before)
      | none => regexFenceGroup r
    else regexFenceGroup r

/-- A structured JSON value (Python's `json` module restricted to the value
kinds this pipeline produces; numbers are integers — floats are out of scope
of the embedding). -/
inductive Json where
  | null
  | bool (b : Bool)
  | num (n : Int)
  | str (s : String)
  | arr (elems : List Json)
  | obj (fields : List (String × Json))
deriving Repr

/-- The decimal digit character for `d < 10`. -/
def digitChar (d : Nat) : Char := Char.ofNat (48 + d)

/-- Little-endian decimal digits of `n` (with fuel; `fuel ≥ n` suffices). -/
def natDigitsRev : Nat → Nat → List Nat
  | 0, _ => []
  | fuel + 1, n => if n = 0 then [] else n % 10 :: natDigitsRev fuel (n / 10)

/-- Decimal rendering of a natural number. -/
def natDumpChars (n : Nat) : List Char :=
  if n = 0 then ['0'] else (natDigitsRev n n).reverse.map digitChar

/-- `json.dumps` of a Python int. -/
def intDumpChars (i : Int) : List Char :=
  if i < 0 then '-' :: natDumpChars i.natAbs else natDumpChars i.natAbs

/-- `json.dumps` string escaping, restricted to the escapes exercised here
(quote, backslash, newline, tab, carriage return; other control characters
and the `ensure_ascii` non-ASCII escaping are not modelled). -/
def escChar (c : Char) : List Char :=
  if c = '"' then ['\\', '"']
  else if c = '\\' then ['\\', '\\']
  else if c = '\n' then ['\\', 'n']
  else if c = '\t' then ['\\', 't']
  else if c = '\r' then ['\\', 'r']
  else [c]

/-- Escape a whole string body. -/
def escString (cs : List Char) : List Char := (cs.map escChar).flatten

/-- `", ".join` over rendered items (the default `json.dumps` separators). -/
def joinCommaSep : List (List Char) → List Char
  | [] => []
  | [x] => x
  | x :: xs => x ++ ',' :: ' ' :: joinCommaSep xs

/-- `json.dumps` with the default separators, as a character list. -/
def dumpChars : Json → List Char
  | .null => "null".data
  | .bool true => "true".data
  | .bool false => "false".data
  | .num i => intDumpChars i
  | .str s => '"' :: (escString s.data ++ ['"'])
  | .arr xs =>
    '[' :: (joinCommaSep (xs.attach.map (fun x => dumpChars x.1)) ++ [']'])
  | .obj kvs =>
    '\x7b' :: (joinCommaSep (kvs.attach.map
      (fun kv => ('"' :: (escString kv.1.1.data ++ ['"'])) ++ ':' :: ' ' :: dumpChars kv.1.2))
      ++ ['\x7d'])
termination_by x => sizeOf x
decreasing_by
  · have := List.sizeOf_lt_of_mem x.2
    simp only [Json.arr.sizeOf_spec]
    omega
  · have h1 := List.sizeOf_lt_of_mem kv.2
    have h2 : sizeOf kv.1.2 < sizeOf kv.1 := by
      obtain ⟨a, b⟩ := kv.1
      simp only [Prod.mk.sizeOf_spec]
      omega
    simp only [Json.obj.sizeOf_spec]
    omega

/-- `json.dumps` as a string. -/
def dumps (x : Json) : String := String.mk (dumpChars x)

/-- The rendering of the element list of an array. -/
def dumpElemsChars (xs : List Json) : List Char :=
  joinCommaSep (xs.map dumpChars)

/-- The rendering of one `"key": value` field. -/
def dumpFieldChars (kv : String × Json) : List Char :=
  ('"' :: (escString kv.1.data ++ ['"'])) ++ ':' :: ' ' :: dumpChars kv.2

/-- The rendering of the field list of an object. -/
def dumpFieldsChars (kvs : List (String × Json)) : List Char :=
  joinCommaSep (kvs.map dumpFieldChars)

/-- The JSON string-escape codes understood by the parser (`\uXXXX` escapes
are not modelled). -/
def decodeEsc (c : Char) : Option Char :=
  if c = '"' then some '"'
  else if c = '\\' then some '\\'
  else if c = '/' then some '/'
  else if c = 'n' then some '\n'
  else if c = 't' then some '\t'
  else if c = 'r' then some '\r'
  else if c = 'b' then some '\x08'
  else if c = 'f' then some '\x0c'
  else none

/-- Parse the body of a JSON string up to the closing quote. -/
def parseStrBody : List Char → Option (List Char × List Char)
  | [] => none
  | c :: rest =>
    if c = '"' then some ([], rest)
    else if c = '\\' then
      match rest with
      | [] => none
      | e :: rest2 =>
        match decodeEsc e with
        | some d => (parseStrBody rest2).map (fun p => (d :: p.1, p.2))
        | none => none
    else (parseStrBody rest).map (fun p => (c :: p.1, p.2))

/-- Take the maximal run of leading digits. -/
def takeDigits : List Char → List Char × List Char
  | [] => ([], [])
  | c :: r =>
    if c.isDigit then
      let p := takeDigits r
      (c :: p.1, p.2)
    else ([], c :: r)

/-- Numeric value of a digit-character run. -/
def digitsVal (ds : List Char) : Nat :=
  ds.foldl (fun a c => 10 * a + (c.toNat - 48)) 0

/-- Strip an expected literal prefix. -/
def stripPre : List Char → List Char → Option (List Char)
  | [], l => some l
  | _ :: _, [] => none
  | p :: ps, c :: cs => if c = p then stripPre ps cs else none

mutual

/-- Model of the `json.loads` value grammar (fuel-indexed recursive-descent
parser; leading whitespace is skipped before every value). -/
def parseVal : Nat → List Char → Option (Json × List Char)
  | 0, _ => none
  | f + 1, cs =>
    match skipWs cs with
    | [] => none
    | c :: r =>
      if c = 'n' then
        match stripPre ['u', 'l', 'l'] r with
        | some r' => some (.null, r')
        | none => none
      else if c = 't' then
        match stripPre ['r', 'u', 'e'] r with
        | some r' => some (.bool true, r')
        | none => none
      else if c = 'f' then
        match stripPre ['a', 'l', 's', 'e'] r with
        | some r' => some (.bool false, r')
        | none => none
      else if c = '"' then
        match parseStrBody r with
        | some (s, r') => some (.str (String.mk s), r')
        | none => none
      else if c = '-' then
        match takeDigits r with
        | ([], _) => none
        | (ds, r') => some (.num (-(digitsVal ds : Int)), r')
      else if c.isDigit then
        match takeDigits (c :: r) with
        | (ds, r') => some (.num (digitsVal ds : Int), r')
      else if c = '[' then
        match skipWs r with
        | ']' :: r' => some (.arr [], r')
        | r' =>
          match parseElems f r' with
          | some (xs, r'') => some (.arr xs, r'')
          | none => none
      else if c = '\x7b' then
        match skipWs r with
        | '\x7d' :: r' => some (.obj [], r')
        | r' =>
          match parseFields f r' with
          | some (kvs, r'') => some (.obj kvs, r'')
          | none => none
      else none

/-- Parse `value (, value)* ]` inside an array. -/
def parseElems : Nat → List Char → Option (List Json × List Char)
  | 0, _ => none
  | f + 1, cs =>
    match parseVal f cs with
    | some (v, r) =>
      (match skipWs r with
       | ',' :: r' =>
         (match parseElems f r' with
          | some (vs, r'') => some (v :: vs, r'')
          | none => none)
       | ']' :: r' => some ([v], r')
       | _ => none)
    | none => none

/-- Parse `"key": value (, "key": value)* and closing brace` inside an
object. -/
def parseFields : Nat → List Char → Option (List (String × Json) × List Char)
  | 0, _ => none
  | f + 1, cs =>
    match skipWs cs with
    | '"' :: r =>
      (match parseStrBody r with
       | some (k, r1) =>
         (match skipWs r1 with
          | ':' :: r2 =>
            (match parseVal f r2 with
             | some (v, r3) =>
               (match skipWs r3 with
                | ',' :: r4 =>
                  (match parseFields f r4 with
                   | some (kvs, r5) => some ((String.mk k, v) :: kvs, r5)
                   | none => none)
                | '\x7d' :: r4 => some ([(String.mk k, v)], r4)
                | _ => none)
             | none => none)
          | _ => none)
       | none => none)
    | _ => none

end

/-- `json.loads`: parse one value and require only trailing whitespace; the
fuel `length + 1` is sufficient because every recursive step consumes at
least one character. -/
def loads (cs : List Char) : Option Json :=
  match parseVal (cs.length + 1) cs with
  | some (j, rest) => if (skipWs rest).isEmpty then some j else none
  | none => none

/-- The dynamically-typed argument of `safe_json_parse`. -/
inductive PyVal where
  | pyStr (s : String)
  | pyObj (j : Json)
  | pyNone
deriving Repr

/-- `safe_json_parse` (callbacks.py): a non-string is returned as-is;
otherwise the string is stripped, the inner text of a ```json fenced block is
extracted when the pattern matches, and the result is handed to `json.loads`;
on parse failure the original string is returned unchanged (the function
never raises). -/
def safe_json_parse (value : PyVal) : PyVal :=
  match value with
  | .pyStr s =>
    let cleaned := trimChars s.data
    let cleaned :=
      match regexFenceGroup cleaned with
      | some inner => inner
      | none => cleaned
    (match loads cleaned with
     | some j => .pyObj j
     | none => value)
  | v => v

/-- The claim's `fence`: wrap a serialized payload in a ```json fenced code
block (stated from the claim's words, for the round-trip theorem). -/
def fence (s : String) : String :=
  String.mk ('`' :: '`' :: '`' :: 'j' :: 's' :: 'o' :: 'n' :: '\n' ::
    (s.data ++ ['\n', '`', '`', '`']))

/-- Does the text not begin with a decimal digit (so that a serialized number
followed by it parses back unchanged)? -/
def noDigitHead : List Char → Bool
  | [] => true
  | c :: _ => !c.isDigit

/-! ## Theorems -/

/-- Helper: the head of a 3-element take. -/
theorem head?_take3 (l : List Char) : (l.take 3).head? = l.head? := by
  cases l <;> simp

/-- C10: for every input string, `validate_us_phone_number` never throws (it
is a total function) and returns `valid` with normalized number `"+1"`
followed by the last ten digits exactly when the digit-only form has ten
digits (or eleven digits beginning with `1`) and the first of the last ten
digits is neither `0` nor `1`; in every other case it returns `valid := false`
with `normalized := none`. -/
theorem validate_us_phone_number_spec (s : String) :
    (usPhoneSpecOk s →
      validate_us_phone_number s =
        { valid := true, error := none,
          normalized := some (String.mk ('+' :: '1' :: usLastTen s)) })
    ∧ (¬ usPhoneSpecOk s →
      (validate_us_phone_number s).valid = false ∧
      (validate_us_phone_number s).normalized = none) := by
  have hArea : ∀ nm : String, usAreaCodeCheck (digitsOnly s) nm =
      if (usLastTen s).head? = some '0' ∨ (usLastTen s).head? = some '1' then
        { valid := false
          error := some "Invalid area code. Area codes cannot start with 0 or 1."
          normalized := none }
      else { valid := true, error := none, normalized := some nm } := by
    intro nm
    simp only [usAreaCodeCheck, head?_take3, usLastTen]
  have hv : validate_us_phone_number s =
      if (digitsOnly s).length = 10 then
        usAreaCodeCheck (digitsOnly s) (String.mk ('+' :: '1' :: digitsOnly s))
      else if (digitsOnly s).length = 11 ∧ (digitsOnly s).head? = some '1' then
        usAreaCodeCheck (digitsOnly s) (String.mk ('+' :: digitsOnly s))
      else
        { valid := false
          error := some "Invalid US phone number format. Expected 10 or 11 digits."
          normalized := none } := by
    simp only [validate_us_phone_number]
  constructor
  · rintro ⟨hfmt, harea⟩
    rcases hfmt with h10 | ⟨h11, hhead⟩
    · have hlast : usLastTen s = digitsOnly s := by
        simp [usLastTen, h10]
      rw [hv, if_pos h10, hArea, if_neg harea, hlast]
    · obtain ⟨t, ht⟩ : ∃ t, digitsOnly s = '1' :: t := by
        cases hds : digitsOnly s with
        | nil => rw [hds] at hhead; simp at hhead
        | cons c t =>
          rw [hds] at hhead
          simp at hhead
          exact ⟨t, by rw [hhead]⟩
      have htlen : t.length = 10 := by
        rw [ht] at h11
        simpa using h11
      have hne10 : ¬ (digitsOnly s).length = 10 := by omega
      have hlast : usLastTen s = t := by
        simp [usLastTen, ht, htlen]
      rw [hv, if_neg hne10, if_pos ⟨h11, hhead⟩, hArea, if_neg harea, hlast, ht]
  · intro hno
    by_cases h10 : (digitsOnly s).length = 10
    · have harea : (usLastTen s).head? = some '0' ∨ (usLastTen s).head? = some '1' := by
        by_contra hc
        exact hno ⟨Or.inl h10, hc⟩
      rw [hv, if_pos h10, hArea, if_pos harea]
      exact ⟨rfl, rfl⟩
    · by_cases h11 : (digitsOnly s).length = 11 ∧ (digitsOnly s).head? = some '1'
      · have harea : (usLastTen s).head? = some '0' ∨ (usLastTen s).head? = some '1' := by
          by_contra hc
          exact hno ⟨Or.inr h11, hc⟩
        rw [hv, if_neg h10, if_pos h11, hArea, if_pos harea]
        exact ⟨rfl, rfl⟩
      · rw [hv, if_neg h10, if_neg h11]
        exact ⟨rfl, rfl⟩

/-- C10 witness: a concrete accepted number and a concrete rejected one. -/
theorem validate_us_phone_number_spec_witness :
    validate_us_phone_number "(415) 555-2671" =
      { valid := true, error := none, normalized := some "+14155552671" }
    ∧ (validate_us_phone_number "(041) 555-2671").valid = false := by
  constructor
  · have h := (validate_us_phone_number_spec "(415) 555-2671").1 (by decide)
    rw [h]
    rfl
  · exact ((validate_us_phone_number_spec "(041) 555-2671").2 (by decide)).1

/-- C2: for every run whose session state yields no value under
`call_category` (the key is absent), `sdrRouterRun` fails with the explicit
validation-failure event and executes neither branch — it does not default. -/
theorem router_missing_key_fails (st : SessionState)
    (h : alistGet st "call_category" = none) :
    sdrRouterRun st =
      { errorEvents := ["Outreach failed: Classifier result missing in session state."]
        emailAgentRuns := 0
        saveAgentRuns := 0 } := by
  simp only [sdrRouterRun, h]

/-- C2 witness: the empty session state has no classification key. -/
theorem router_missing_key_fails_witness :
    sdrRouterRun [] =
      { errorEvents := ["Outreach failed: Classifier result missing in session state."]
        emailAgentRuns := 0
        saveAgentRuns := 0 } :=
  router_missing_key_fails [] rfl

/-- C3 counterexample: a session state in which `call_category` is present
but bound to Python `None`.  The claim demands that a present key make the
router execute exactly one branch, but `state.get` returns `None` for the
stored `None` and the router takes the error path, running zero branches. -/
theorem router_present_none_runs_no_branch_cex :
    alistGet [("call_category", Val.vNone)] "call_category" = some Val.vNone
    ∧ (sdrRouterRun [("call_category", Val.vNone)]).emailAgentRuns = 0
    ∧ (sdrRouterRun [("call_category", Val.vNone)]).saveAgentRuns = 0
    ∧ (sdrRouterRun [("call_category", Val.vNone)]).errorEvents ≠ [] :=
  ⟨rfl, rfl, rfl, by intro h; cases h⟩

/-- C3 (amended): for every run whose session state binds `call_category` to
a value other than Python `None`, the router executes exactly one of its two
branches: only the email branch on a truthy value, only the persist-only
branch on a falsy value, never both and never zero.  (A stored `None` is
indistinguishable from an absent key to `state.get` and takes the error
path.) -/
theorem router_exactly_one_branch (st : SessionState) (v : Val)
    (hget : alistGet st "call_category" = some v) (hv : v ≠ Val.vNone) :
    (truthy v = true →
      sdrRouterRun st = { errorEvents := [], emailAgentRuns := 1, saveAgentRuns := 0 })
    ∧ (truthy v = false →
      sdrRouterRun st = { errorEvents := [], emailAgentRuns := 0, saveAgentRuns := 1 })
    ∧ (sdrRouterRun st).emailAgentRuns + (sdrRouterRun st).saveAgentRuns = 1 := by
  have hrun : sdrRouterRun st =
      if truthy v then { errorEvents := [], emailAgentRuns := 1, saveAgentRuns := 0 }
      else { errorEvents := [], emailAgentRuns := 0, saveAgentRuns := 1 } := by
    cases v with
    | vNone => exact absurd rfl hv
    | vBool b => simp [sdrRouterRun, hget]
    | vStr s => simp [sdrRouterRun, hget]
    | vInt n => simp [sdrRouterRun, hget]
    | vDict kvs => simp [sdrRouterRun, hget]
    | vList xs => simp [sdrRouterRun, hget]
  rw [hrun]
  cases htruthy : truthy v <;> simp

/-- C3 witness: a truthy boolean runs only the email branch, a falsy one only
the persist branch. -/
theorem router_exactly_one_branch_witness :
    sdrRouterRun [("call_category", Val.vBool true)] =
      { errorEvents := [], emailAgentRuns := 1, saveAgentRuns := 0 }
    ∧ sdrRouterRun [("call_category", Val.vBool false)] =
      { errorEvents := [], emailAgentRuns := 0, saveAgentRuns := 1 } :=
  ⟨(router_exactly_one_branch [("call_category", Val.vBool true)] (Val.vBool true)
      rfl (by intro h; cases h)).1 rfl,
   (router_exactly_one_branch [("call_category", Val.vBool false)] (Val.vBool false)
      rfl (by intro h; cases h)).2.1 rfl⟩

/-- C4: the loop gate escalates (signals termination) iff the session state
binds `quality_status` to the string `"pass"` — in particular an absent key
is treated as `"fail"`, never silently as a pass — and the
`max_iterations = 3` loop halts at the first passing iteration or after three
iterations, whichever comes first. -/
theorem loop_gate_pass_iff_and_bounded :
    (∀ st : SessionState,
      specStatusCheckerEscalate st = true ↔
        alistGet st "quality_status" = some (Val.vStr "pass"))
    ∧ (∀ st : SessionState,
      alistGet st "quality_status" = none → specStatusCheckerEscalate st = false)
    ∧ (∀ (body : Nat → SessionState → SessionState) (st : SessionState),
      specCreatorLoopRun body st =
        if specStatusCheckerEscalate (loopTraj body st 1) then (loopTraj body st 1, 1)
        else if specStatusCheckerEscalate (loopTraj body st 2) then (loopTraj body st 2, 2)
        else (loopTraj body st 3, 3)) := by
  have hgate : ∀ st : SessionState,
      specStatusCheckerEscalate st = true ↔
        alistGet st "quality_status" = some (Val.vStr "pass") := by
    intro st
    cases hg : alistGet st "quality_status" with
    | none => simp [specStatusCheckerEscalate, hg, truthy, valEqStr]
    | some v =>
      cases v with
      | vStr q =>
        by_cases hq : q = ""
        · simp [specStatusCheckerEscalate, hg, truthy, valEqStr, hq]
        · simp only [specStatusCheckerEscalate, hg, Option.getD_some, truthy, valEqStr]
          simp [hq]
      | vNone => simp [specStatusCheckerEscalate, hg, truthy, valEqStr]
      | vBool b => cases b <;> simp [specStatusCheckerEscalate, hg, truthy, valEqStr]
      | vInt n =>
        by_cases hn : n = 0 <;> simp [specStatusCheckerEscalate, hg, truthy, valEqStr, hn]
      | vDict kvs =>
        cases kvs <;> simp [specStatusCheckerEscalate, hg, truthy, valEqStr]
      | vList xs =>
        cases xs <;> simp [specStatusCheckerEscalate, hg, truthy, valEqStr]
  refine ⟨hgate, ?_, ?_⟩
  · intro st h
    rw [← Bool.not_eq_true]
    intro hc
    rw [hgate st] at hc
    rw [h] at hc
    cases hc
  · intro body st
    have t1 : loopTraj body st 1 = body 0 st := by simp [loopTraj]
    have t2 : loopTraj body st 2 = body 1 (body 0 st) := by simp [loopTraj]
    have t3 : loopTraj body st 3 = body 2 (body 1 (body 0 st)) := by simp [loopTraj]
    rw [t1, t2, t3]
    show loopGo body 3 0 st = _
    by_cases h1 : specStatusCheckerEscalate (body 0 st)
    · simp [loopGo, h1]
    · by_cases h2 : specStatusCheckerEscalate (body 1 (body 0 st))
      · simp [loopGo, h1, h2]
      · by_cases h3 : specStatusCheckerEscalate (body 2 (body 1 (body 0 st)))
        · simp [loopGo, h1, h2, h3]
        · simp [loopGo, h1, h2, h3]

/-- C4 witness: with `quality_status = "pass"` the gate escalates; with the
key absent it does not; a body that passes on the second iteration makes the
loop stop after exactly two iterations. -/
theorem loop_gate_pass_iff_and_bounded_witness :
    specStatusCheckerEscalate [("quality_status", Val.vStr "pass")] = true
    ∧ specStatusCheckerEscalate [] = false
    ∧ (specCreatorLoopRun
        (fun i _ => if i = 0 then [] else [("quality_status", Val.vStr "pass")]) []).2 = 2 := by
  refine ⟨?_, ?_, ?_⟩
  · exact (loop_gate_pass_iff_and_bounded.1 [("quality_status", Val.vStr "pass")]).mpr rfl
  · exact loop_gate_pass_iff_and_bounded.2.1 [] rfl
  · rw [loop_gate_pass_iff_and_bounded.2.2
      (fun i _ => if i = 0 then [] else [("quality_status", Val.vStr "pass")]) []]
    rfl

/-- Helper: looking up the key just set. -/
theorem alistGet_set_self {β : Type} (l : List (String × β)) (k : String) (v : β) :
    alistGet (alistSet l k v) k = some v := by
  simp [alistGet, alistSet]

/-- Helper: over an unchanging registry, the poll loop of a pending request
always times out, cancelling the request and returning the sentinel. -/
theorem waitPoll_pending (reg : Registry) (rid : String) (req : HumanRequest)
    (hget : alistGet reg rid = some req) (hp : req.status = .pending) :
    ∀ n, waitPoll reg rid n = (none, cancelRequest reg rid) := by
  intro n
  induction n with
  | zero => simp [waitPoll, hget, hp]
  | succ n ih => simp [waitPoll, hget, hp, ih]

/-- C5: a pending request that is never resolved makes
`wait_for_human_response` return the timeout sentinel `none` (it never
throws: the function is total), as a side effect marks the request cancelled,
and afterwards the request can no longer be resolved:
`submit_human_response` on it returns failure and changes nothing. -/
theorem await_response_timeout_cancels (reg : Registry) (rid url : String)
    (timeout : Nat) (req : HumanRequest)
    (hget : alistGet reg rid = some req) (hp : req.status = .pending) :
    wait_for_human_response reg rid timeout = (none, cancelRequest reg rid)
    ∧ alistGet (cancelRequest reg rid) rid = some { req with status := .cancelled }
    ∧ submit_human_response (cancelRequest reg rid) rid url =
        (false, cancelRequest reg rid) := by
  have hcancel : cancelRequest reg rid =
      alistSet reg rid { req with status := .cancelled } := by
    simp [cancelRequest, hget]
  have hget' : alistGet (cancelRequest reg rid) rid =
      some { req with status := .cancelled } := by
    rw [hcancel]
    exact alistGet_set_self reg rid _
  refine ⟨waitPoll_pending reg rid req hget hp (timeout + 1), hget', ?_⟩
  simp [submit_human_response, hget']

/-- C5 witness: a concrete never-resolved pending request with a 2-second
timeout. -/
theorem await_response_timeout_cancels_witness :
    wait_for_human_response [("r1", ⟨"make a site", .pending, none⟩)] "r1" 2 =
      (none, cancelRequest [("r1", ⟨"make a site", .pending, none⟩)] "r1")
    ∧ submit_human_response
        (cancelRequest [("r1", ⟨"make a site", .pending, none⟩)] "r1") "r1" "http://x" =
      (false, cancelRequest [("r1", ⟨"make a site", .pending, none⟩)] "r1") :=
  ⟨(await_response_timeout_cancels [("r1", ⟨"make a site", .pending, none⟩)]
      "r1" "http://x" 2 ⟨"make a site", .pending, none⟩ rfl rfl).1,
   (await_response_timeout_cancels [("r1", ⟨"make a site", .pending, none⟩)]
      "r1" "http://x" 2 ⟨"make a site", .pending, none⟩ rfl rfl).2.2⟩

/-- C6: `submit_human_response` resolves a request exactly once: an unknown
id or a request whose status is already terminal (completed or cancelled)
yields failure with the registry unchanged; only a pending request
transitions, to completed with the supplied value. -/
theorem submit_response_exactly_once (reg : Registry) (rid url : String) :
    (alistGet reg rid = none → submit_human_response reg rid url = (false, reg))
    ∧ (∀ req, alistGet reg rid = some req → req.status ≠ .pending →
        submit_human_response reg rid url = (false, reg))
    ∧ (∀ req, alistGet reg rid = some req → req.status = .pending →
        submit_human_response reg rid url =
          (true, alistSet reg rid
            { req with status := .completed, url_response := some url })) := by
  refine ⟨?_, ?_, ?_⟩
  · intro h
    simp [submit_human_response, h]
  · intro req h hs
    simp [submit_human_response, h, hs]
  · intro req h hs
    simp [submit_human_response, updateRequest, h, hs]

/-- C6 witness: unknown id fails; a cancelled request fails unchanged; a
pending request completes with the value. -/
theorem submit_response_exactly_once_witness :
    submit_human_response [] "nope" "http://x" = (false, [])
    ∧ submit_human_response [("r2", ⟨"p", .cancelled, none⟩)] "r2" "http://x" =
        (false, [("r2", ⟨"p", .cancelled, none⟩)])
    ∧ submit_human_response [("r3", ⟨"p", .pending, none⟩)] "r3" "http://x" =
        (true, alistSet [("r3", ⟨"p", .pending, none⟩)] "r3"
          ⟨"p", .completed, some "http://x"⟩) :=
  ⟨(submit_response_exactly_once [] "nope" "http://x").1 rfl,
   (submit_response_exactly_once [("r2", ⟨"p", .cancelled, none⟩)] "r2" "http://x").2.1
      ⟨"p", .cancelled, none⟩ rfl (by intro h; cases h),
   (submit_response_exactly_once [("r3", ⟨"p", .pending, none⟩)] "r3" "http://x").2.2
      ⟨"p", .pending, none⟩ rfl rfl⟩

/-- C7: two invocations of the human-creation entry flow with the same
prompt (hence the same dedup key) while the first is still active produce
exactly one outbound notification: the first proceeds — marking the session
active, registering a pending request and notifying once — and the second
detects the active session, creates no request, sends no notification,
leaves the broker unchanged and only re-checks the session state. -/
theorem human_request_dedup_single_notification (prompt id1 id2 : String)
    (st1 st2 : SessionState) (b0 : Broker)
    (h1 : truthy ((alistGet st1 "website_preview_link").getD (.vStr "")) = false)
    (h2 : truthy ((alistGet st2 "website_preview_link").getD (.vStr "")) = false)
    (hact : b0.activeSessions.contains (sessionIdOf prompt) = false) :
    (humanCreationEntry id1 st1 b0 prompt).notifications = 1
    ∧ (humanCreationEntry id1 st1 b0 prompt).outcome = .proceeding id1
    ∧ alistGet (humanCreationEntry id1 st1 b0 prompt).broker.requests id1 =
        some { prompt := prompt, status := .pending, url_response := none }
    ∧ (humanCreationEntry id2 st2 (humanCreationEntry id1 st1 b0 prompt).broker
        prompt).notifications = 0
    ∧ (humanCreationEntry id2 st2 (humanCreationEntry id1 st1 b0 prompt).broker
        prompt).broker = (humanCreationEntry id1 st1 b0 prompt).broker
    ∧ (humanCreationEntry id1 st1 b0 prompt).notifications
        + (humanCreationEntry id2 st2 (humanCreationEntry id1 st1 b0 prompt).broker
            prompt).notifications = 1 := by
  have hact' : sessionIdOf prompt ∉ b0.activeSessions := by
    simpa using hact
  have hrun1 : humanCreationEntry id1 st1 b0 prompt =
      { outcome := .proceeding id1
        broker :=
          { requests := createRequest b0.requests id1 prompt
            activeSessions := sessionIdOf prompt :: b0.activeSessions }
        notifications := 1 } := by
    simp [humanCreationEntry, h1, hact']
  have hcontains :
      ((sessionIdOf prompt :: b0.activeSessions).contains (sessionIdOf prompt)) = true := by
    simp [List.contains_cons]
  have hcontains2 : ∀ b : Broker,
      b.activeSessions = sessionIdOf prompt :: b0.activeSessions →
      b.activeSessions.contains (sessionIdOf prompt) = true := by
    intro b hb
    rw [hb]
    exact hcontains
  have hrun2 : humanCreationEntry id2 st2
      { requests := createRequest b0.requests id1 prompt
        activeSessions := sessionIdOf prompt :: b0.activeSessions } prompt =
      { outcome := .duplicate
          (.vStr "Duplicate request detected. Please wait for the existing request to complete.")
        broker :=
          { requests := createRequest b0.requests id1 prompt
            activeSessions := sessionIdOf prompt :: b0.activeSessions }
        notifications := 0 } := by
    simp [humanCreationEntry, h2, hcontains]
  rw [hrun1]
  refine ⟨rfl, rfl, ?_, ?_, ?_, ?_⟩
  · exact alistGet_set_self b0.requests id1 _
  · simp [hrun2]
  · simp [hrun2]
  · simp [hrun2]

/-- C7 witness: a concrete prompt, fresh broker and unresolved states. -/
theorem human_request_dedup_single_notification_witness :
    (humanCreationEntry "id1" [] { requests := [], activeSessions := [] }
      "build a site").notifications = 1
    ∧ (humanCreationEntry "id2" []
        (humanCreationEntry "id1" [] { requests := [], activeSessions := [] }
          "build a site").broker "build a site").notifications = 0 :=
  ⟨(human_request_dedup_single_notification "build a site" "id1" "id2" [] []
      { requests := [], activeSessions := [] } rfl rfl rfl).1,
   (human_request_dedup_single_notification "build a site" "id1" "id2" [] []
      { requests := [], activeSessions := [] } rfl rfl rfl).2.2.2.1⟩

/-- C9: when the session state already holds a truthy (non-empty)
`website_preview_link`, the human-creation tool returns that stored value
immediately: no pending request is created, no outbound notification is sent,
no wait is entered and the broker state is left unchanged. -/
theorem human_creation_cached_link_short_circuit (newId prompt : String)
    (st : SessionState) (b : Broker) (v : Val)
    (hget : alistGet st "website_preview_link" = some v)
    (hv : truthy v = true) :
    humanCreationEntry newId st b prompt =
      { outcome := .cachedUrl v, broker := b, notifications := 0 } := by
  simp [humanCreationEntry, hget, hv]

/-- C9 witness: a concrete stored preview link. -/
theorem human_creation_cached_link_short_circuit_witness :
    humanCreationEntry "id9" [("website_preview_link", Val.vStr "http://site")]
      { requests := [], activeSessions := [] } "build a site" =
      { outcome := .cachedUrl (Val.vStr "http://site")
        broker := { requests := [], activeSessions := [] }
        notifications := 0 } :=
  human_creation_cached_link_short_circuit "id9" "build a site"
    [("website_preview_link", Val.vStr "http://site")]
    { requests := [], activeSessions := [] } (Val.vStr "http://site") rfl rfl

/-- Helper: `send_email_with_attachment` by cases on its three guards. -/
theorem send_email_with_attachment_eq (sendResult crafted_email : Val)
    (st : SessionState) :
    send_email_with_attachment sendResult crafted_email st =
      if cachedEmailSuccess st then
        { result := (alistGet st "email_sent_result").getD (.vStr "")
          state := st
          capabilityCalls := 0 }
      else if !(truthy crafted_email && isDict crafted_email) then
        { result := .vDict [("status", .vStr "failed"),
            ("error", .vStr "Invalid crafted_email format. Must be a dict with to, subject, and body.")]
          state := st
          capabilityCalls := 0 }
      else if !(truthy ((dictGet crafted_email "to").getD .vNone)) then
        { result := .vDict [("status", .vStr "failed"),
            ("error", .vStr "Missing required to field in crafted_email.")]
          state := st
          capabilityCalls := 0 }
      else
        { result := sendResult
          state :=
            if (dictGet sendResult "status").any (fun v => valEqStr v "success") then
              alistSet st "email_sent_result" sendResult
            else st
          capabilityCalls := 1 } := rfl

/-- C1 counterexample.  Email side: a call with no cached result (the
`email_sent_result` key is absent) and an invalid `crafted_email` argument —
the claim's "otherwise" case — invokes the underlying capability zero times
instead of once.  Phone side: even with a cached terminal-success
`call_result` (status `"done"`) in the session state, the guard invokes the
capability once instead of zero times, because the callback's allow-list
names `"phone_call_tool"`/`"phone_call_tool_test"` while the registered
tool's runtime name is `"phone_call"`, so the callback always passes
through without consulting the cache. -/
theorem idempotency_guard_cex :
    alistGet ([] : SessionState) "email_sent_result" = none
    ∧ (send_email_with_attachment (Val.vDict [("status", Val.vStr "success")])
        Val.vNone []).capabilityCalls = 0
    ∧ alistGet [("call_result", Val.vDict [("status", Val.vStr "done")])]
        "call_result" = some (Val.vDict [("status", Val.vStr "done")])
    ∧ prevent_duplicate_call_callback "phone_call"
        [("call_result", Val.vDict [("status", Val.vStr "done")])] = none
    ∧ (guardedPhoneCall Val.vNone
        [("call_result", Val.vDict [("status", Val.vStr "done")])]).capabilityCalls = 1 :=
  ⟨rfl, rfl, rfl, rfl, rfl⟩

/-- C1 (amended): the idempotency guard.  For the email tool: with a cached
`email_sent_result` dict whose status is `"success"`, the cached dict is
returned and the capability runs zero times; without a cached success and
with arguments that pass validation (a truthy dict with a truthy `to`), the
capability runs exactly once, its result is returned, and on success it is
persisted under `email_sent_result`; without a cached success and with
invalid arguments a `failed` result is returned without invoking the
capability.  For the phone tool: `prevent_duplicate_call_callback` yields
the cached `call_result` dict (wrapped as `{"result": ...}`) only for tools
named `"phone_call_tool"`/`"phone_call_tool_test"`, and then exactly when
the cached status is `"done"`/`"completed"` or the transcript is a non-empty
list; but the registered phone tool's runtime name is `"phone_call"`, which
is not on that allow-list, so in the program the callback always passes
through and every guarded phone invocation runs the capability once and
persists its result under `call_result`, even when a terminal-success
result is already cached — the suppression is inert. -/
theorem idempotency_guard_spec :
    (∀ (sendResult crafted_email : Val) (st : SessionState)
        (kvs : List (String × Val)),
      alistGet st "email_sent_result" = some (.vDict kvs) →
      alistGet kvs "status" = some (.vStr "success") →
      send_email_with_attachment sendResult crafted_email st =
        { result := .vDict kvs, state := st, capabilityCalls := 0 })
    ∧ (∀ (sendResult crafted_email : Val) (st : SessionState),
      cachedEmailSuccess st = false →
      validEmailArgs crafted_email = true →
      (send_email_with_attachment sendResult crafted_email st).capabilityCalls = 1
      ∧ (send_email_with_attachment sendResult crafted_email st).result = sendResult
      ∧ ((dictGet sendResult "status").any (fun v => valEqStr v "success") = true →
          alistGet (send_email_with_attachment sendResult crafted_email st).state
            "email_sent_result" = some sendResult))
    ∧ (∀ (sendResult crafted_email : Val) (st : SessionState),
      cachedEmailSuccess st = false →
      validEmailArgs crafted_email = false →
      (send_email_with_attachment sendResult crafted_email st).capabilityCalls = 0
      ∧ dictGet (send_email_with_attachment sendResult crafted_email st).result
          "status" = some (.vStr "failed"))
    ∧ (∀ st : SessionState,
      prevent_duplicate_call_callback "phone_call" st = none)
    ∧ (∀ (callResult : Val) (st : SessionState),
      guardedPhoneCall callResult st =
        { result := callResult
          state := alistSet st "call_result" callResult
          capabilityCalls := 1 }
      ∧ alistGet (guardedPhoneCall callResult st).state "call_result" =
          some callResult)
    ∧ (∀ (st : SessionState) (kvs : List (String × Val)),
      alistGet st "call_result" = some (.vDict kvs) →
      (alistGet kvs "status").any
          (fun v => valEqStr v "done" || valEqStr v "completed") = true →
      prevent_duplicate_call_callback "phone_call_tool" st =
        some (.vDict [("result", .vDict kvs)]))
    ∧ (∀ (st : SessionState) (kvs : List (String × Val)) (t : Val) (ts : List Val),
      alistGet st "call_result" = some (.vDict kvs) →
      (alistGet kvs "status").any
          (fun v => valEqStr v "done" || valEqStr v "completed") = false →
      alistGet kvs "transcript" = some (.vList (t :: ts)) →
      prevent_duplicate_call_callback "phone_call_tool" st =
        some (.vDict [("result", .vDict kvs)])) := by
  refine ⟨?_, ?_, ?_, ?_, ?_, ?_, ?_⟩
  · intro sendResult crafted_email st kvs hget hstatus
    have hne : kvs ≠ [] := by
      intro h
      rw [h] at hstatus
      cases hstatus
    have hcached : cachedEmailSuccess st = true := by
      simp [cachedEmailSuccess, hget, truthy, isDict, dictGet, hstatus,
        valEqStr, List.isEmpty_iff, hne]
    rw [send_email_with_attachment_eq, if_pos hcached, hget]
    rfl
  · intro sendResult crafted_email st hc hv
    obtain ⟨hAB, hC⟩ := Bool.and_eq_true_iff.mp hv
    rw [send_email_with_attachment_eq, if_neg (by simp [hc]), if_neg (by simp [hAB]),
      if_neg (by simp [hC])]
    refine ⟨rfl, rfl, ?_⟩
    intro hsucc
    simp only [hsucc, if_pos]
    exact alistGet_set_self st "email_sent_result" sendResult
  · intro sendResult crafted_email st hc hv
    rw [send_email_with_attachment_eq, if_neg (by simp [hc])]
    by_cases hAB : (truthy crafted_email && isDict crafted_email) = true
    · have hC : truthy ((dictGet crafted_email "to").getD .vNone) = false := by
        simpa [validEmailArgs, hAB] using hv
      rw [if_neg (by simp [hAB]), if_pos (by simp [hC])]
      exact ⟨rfl, rfl⟩
    · have hAB' : (truthy crafted_email && isDict crafted_email) = false := by
        cases h' : (truthy crafted_email && isDict crafted_email) with
        | false => rfl
        | true => exact absurd h' hAB
      rw [if_pos (by simp [hAB'])]
      exact ⟨rfl, rfl⟩
  · intro st
    rfl
  · intro callResult st
    exact ⟨rfl, alistGet_set_self st "call_result" callResult⟩
  · intro st kvs hget hstatus
    simp [prevent_duplicate_call_callback, hget, isDict, dictGet, hstatus]
  · intro st kvs t ts hget hstatus htr
    simp [prevent_duplicate_call_callback, hget, isDict, dictGet, hstatus, htr,
      truthy, vlen]

/-- C1 witness: concrete cached and uncached email invocations; a concrete
phone invocation whose cached terminal-success `call_result` does not stop
the capability under the program's tool name; and the callback's would-be
suppression at an allow-listed name. -/
theorem idempotency_guard_spec_witness :
    send_email_with_attachment Val.vNone Val.vNone
        [("email_sent_result", Val.vDict [("status", Val.vStr "success")])] =
      { result := Val.vDict [("status", Val.vStr "success")]
        state := [("email_sent_result", Val.vDict [("status", Val.vStr "success")])]
        capabilityCalls := 0 }
    ∧ (send_email_with_attachment (Val.vDict [("status", Val.vStr "success")])
        (Val.vDict [("to", Val.vStr "a@b.c")]) []).capabilityCalls = 1
    ∧ alistGet (send_email_with_attachment (Val.vDict [("status", Val.vStr "success")])
        (Val.vDict [("to", Val.vStr "a@b.c")]) []).state "email_sent_result" =
        some (Val.vDict [("status", Val.vStr "success")])
    ∧ prevent_duplicate_call_callback "phone_call"
        [("call_result", Val.vDict [("status", Val.vStr "done")])] = none
    ∧ (guardedPhoneCall Val.vNone
        [("call_result", Val.vDict [("status", Val.vStr "done")])]).capabilityCalls = 1
    ∧ prevent_duplicate_call_callback "phone_call_tool"
        [("call_result", Val.vDict [("status", Val.vStr "done")])] =
        some (Val.vDict [("result", Val.vDict [("status", Val.vStr "done")])]) := by
  refine ⟨?_, ?_, ?_, ?_, ?_, ?_⟩
  · exact idempotency_guard_spec.1 Val.vNone Val.vNone
      [("email_sent_result", Val.vDict [("status", Val.vStr "success")])]
      [("status", Val.vStr "success")] rfl rfl
  · exact (idempotency_guard_spec.2.1 (Val.vDict [("status", Val.vStr "success")])
      (Val.vDict [("to", Val.vStr "a@b.c")]) [] rfl rfl).1
  · exact (idempotency_guard_spec.2.1 (Val.vDict [("status", Val.vStr "success")])
      (Val.vDict [("to", Val.vStr "a@b.c")]) [] rfl rfl).2.2 rfl
  · exact idempotency_guard_spec.2.2.2.1
      [("call_result", Val.vDict [("status", Val.vStr "done")])]
  · exact ((idempotency_guard_spec.2.2.2.2.1 Val.vNone
      [("call_result", Val.vDict [("status", Val.vStr "done")])]).1).symm ▸ rfl
  · exact idempotency_guard_spec.2.2.2.2.2.1
      [("call_result", Val.vDict [("status", Val.vStr "done")])]
      [("status", Val.vStr "done")] rfl rfl

/-- Helper: leading whitespace is skipped. -/
theorem skipWs_cons_of_not {c : Char} (h : isWsChar c = false) (l : List Char) :
    skipWs (c :: l) = c :: l := by
  simp [skipWs, List.dropWhile_cons, h]

/-- Helper: an all-whitespace prefix is skipped. -/
theorem skipWs_ws_append (ws : List Char) (h : ∀ c ∈ ws, isWsChar c = true) :
    ∀ l, skipWs (ws ++ l) = skipWs l := by
  induction ws with
  | nil => intro l; rfl
  | cons c t ih =>
    intro l
    have hc : isWsChar c = true := h c (by simp)
    have ht : ∀ c ∈ t, isWsChar c = true := fun c hc => h c (by simp [hc])
    simp [skipWs, List.dropWhile_cons, hc]
    exact ih ht l

/-- Helper: stripping an exact literal prefix. -/
theorem stripPre_pre (p : List Char) : ∀ l, stripPre p (p ++ l) = some l := by
  induction p with
  | nil => intro l; rfl
  | cons c t ih => intro l; simp [stripPre, ih]

/-- Helper: a digit character is none of the lexer's leading literals. -/
theorem digit_not_special {c : Char} (h : c.isDigit = true) :
    c ≠ 'n' ∧ c ≠ 't' ∧ c ≠ 'f' ∧ c ≠ '"' ∧ c ≠ '-' ∧ c ≠ '[' ∧ c ≠ '\x7b'
    ∧ c ≠ ']' ∧ c ≠ '\x7d' ∧ c ≠ ',' ∧ c ≠ '`' ∧ isWsChar c = false := by
  refine ⟨?_, ?_, ?_, ?_, ?_, ?_, ?_, ?_, ?_, ?_, ?_, ?_⟩ <;>
    first
    | (intro h'; rw [h'] at h; exact absurd h (by decide))
    | (by_cases h1 : c = ' '
       · rw [h1] at h; exact absurd h (by decide)
       · by_cases h2 : c = '\t'
         · rw [h2] at h; exact absurd h (by decide)
         · by_cases h3 : c = '\n'
           · rw [h3] at h; exact absurd h (by decide)
           · by_cases h4 : c = '\r'
             · rw [h4] at h; exact absurd h (by decide)
             · by_cases h5 : c = '\x0c'
               · rw [h5] at h; exact absurd h (by decide)
               · by_cases h6 : c = '\x0b'
                 · rw [h6] at h; exact absurd h (by decide)
                 · simp [isWsChar, h1, h2, h3, h4, h5, h6])

/-- Helper: one unfolding step of the string-body parser. -/
theorem parseStrBody_cons (c : Char) (rest : List Char) :
    parseStrBody (c :: rest) =
      if c = '"' then some ([], rest)
      else if c = '\\' then
        match rest with
        | [] => none
        | e :: rest2 =>
          match decodeEsc e with
          | some d => (parseStrBody rest2).map (fun p => (d :: p.1, p.2))
          | none => none
      else (parseStrBody rest).map (fun p => (c :: p.1, p.2)) := by
  rw [parseStrBody.eq_def]

/-- Helper: the string-body parser inverts the serializer's escaping. -/
theorem parseStrBody_esc (cs : List Char) : ∀ r : List Char,
    parseStrBody (escString cs ++ '"' :: r) = some (cs, r) := by
  induction cs with
  | nil =>
    intro r
    show parseStrBody ('"' :: r) = some ([], r)
    rw [parseStrBody_cons]
    simp
  | cons c t ih =>
    intro r
    have hesc : escString (c :: t) = escChar c ++ escString t := by
      simp [escString]
    rw [hesc]
    by_cases h1 : c = '"'
    · subst h1; simp [escChar, parseStrBody_cons, decodeEsc, ih]
    · by_cases h2 : c = '\\'
      · subst h2; simp [escChar, parseStrBody_cons, decodeEsc, ih]
      · by_cases h3 : c = '\n'
        · subst h3; simp [escChar, parseStrBody_cons, decodeEsc, ih]
        · by_cases h4 : c = '\t'
          · subst h4; simp [escChar, parseStrBody_cons, decodeEsc, ih]
          · by_cases h5 : c = '\r'
            · subst h5; simp [escChar, parseStrBody_cons, decodeEsc, ih]
            · simp [escChar, h1, h2, h3, h4, h5, parseStrBody_cons, ih]

/-- Helper: the digit lexer takes exactly an all-digit run when what follows
does not begin with a digit. -/
theorem takeDigits_exact (ds : List Char) (hds : ∀ c ∈ ds, c.isDigit = true) :
    ∀ r, noDigitHead r = true → takeDigits (ds ++ r) = (ds, r) := by
  induction ds with
  | nil =>
    intro r hr
    cases r with
    | nil => rfl
    | cons c t =>
      have : c.isDigit = false := by
        simpa [noDigitHead] using hr
      simp [takeDigits, this]
  | cons c t ih =>
    intro r hr
    have hc : c.isDigit = true := hds c (by simp)
    have ht : ∀ c ∈ t, c.isDigit = true := fun c hc' => hds c (by simp [hc'])
    simp [takeDigits, hc, ih ht r hr]

/-- Helper: every digit of `natDigitsRev` is below ten. -/
theorem natDigitsRev_lt10 : ∀ (fuel n d : Nat), d ∈ natDigitsRev fuel n → d < 10 := by
  intro fuel
  induction fuel with
  | zero => intro n d h; cases h
  | succ fuel ih =>
    intro n d h
    by_cases hn : n = 0
    · rw [hn] at h; simp [natDigitsRev] at h
    · rw [natDigitsRev, if_neg hn] at h
      rcases List.mem_cons.mp h with h' | h'
      · rw [h']; exact Nat.mod_lt _ (by omega)
      · exact ih _ _ h'

/-- Helper: `natDigitsRev` is a little-endian digit expansion. -/
theorem natDigitsRev_val : ∀ (fuel n : Nat), n ≤ fuel →
    (natDigitsRev fuel n).foldr (fun d acc => 10 * acc + d) 0 = n := by
  intro fuel
  induction fuel with
  | zero => intro n h; interval_cases n; rfl
  | succ fuel ih =>
    intro n h
    by_cases hn : n = 0
    · rw [hn]; simp [natDigitsRev]
    · rw [natDigitsRev, if_neg hn]
      have hdiv : n / 10 ≤ fuel := by omega
      simp only [List.foldr_cons, ih (n / 10) hdiv]
      omega

/-- Helper: value and digit-ness of `digitChar`. -/
theorem digitChar_spec (d : Nat) (h : d < 10) :
    (digitChar d).isDigit = true ∧ (digitChar d).toNat - 48 = d := by
  interval_cases d <;> exact ⟨by decide, by decide⟩

/-- Helper: `digitsVal` over mapped digit characters is the decimal fold. -/
theorem digitsVal_map_digitChar (l : List Nat) (hl : ∀ d ∈ l, d < 10) :
    ∀ acc : Nat,
      (l.map digitChar).foldl (fun a c => 10 * a + (c.toNat - 48)) acc =
        l.foldl (fun a d => 10 * a + d) acc := by
  induction l with
  | nil => intro acc; rfl
  | cons d t ih =>
    intro acc
    have hd : d < 10 := hl d (by simp)
    have ht : ∀ d ∈ t, d < 10 := fun d hd' => hl d (by simp [hd'])
    simp only [List.map_cons, List.foldl_cons, (digitChar_spec d hd).2]
    exact ih ht _

/-- Helper: `natDumpChars` renders only digit characters. -/
theorem natDumpChars_digits (n : Nat) : ∀ c ∈ natDumpChars n, c.isDigit = true := by
  intro c hc
  by_cases hn : n = 0
  · rw [hn] at hc
    simp [natDumpChars] at hc
    rw [hc]; decide
  · rw [natDumpChars, if_neg hn] at hc
    rcases List.mem_map.mp hc with ⟨d, hd, hdc⟩
    rw [← hdc]
    exact (digitChar_spec d (natDigitsRev_lt10 n n d (List.mem_reverse.mp hd))).1

/-- Helper: `natDumpChars` is never empty. -/
theorem natDumpChars_ne_nil (n : Nat) : natDumpChars n ≠ [] := by
  by_cases hn : n = 0
  · rw [hn]; simp [natDumpChars]
  · obtain ⟨m, rfl⟩ : ∃ m, n = m + 1 := ⟨n - 1, by omega⟩
    rw [natDumpChars, if_neg hn]
    intro h
    simp at h
    rw [natDigitsRev, if_neg hn] at h
    cases h

/-- Helper: `digitsVal` inverts `natDumpChars`. -/
theorem digitsVal_natDumpChars (n : Nat) : digitsVal (natDumpChars n) = n := by
  by_cases hn : n = 0
  · rw [hn]; decide
  · rw [natDumpChars, if_neg hn]
    have hlt : ∀ d ∈ (natDigitsRev n n).reverse, d < 10 := by
      intro d hd
      exact natDigitsRev_lt10 n n d (List.mem_reverse.mp hd)
    rw [digitsVal, digitsVal_map_digitChar _ hlt 0, List.foldl_reverse]
    exact natDigitsRev_val n n (le_refl n)

/-- Helper: `dumpChars` on an array, with the `attach` map collapsed. -/
theorem dumpChars_arr (xs : List Json) :
    dumpChars (.arr xs) = '[' :: (joinCommaSep (xs.map dumpChars) ++ [']']) := by
  rw [dumpChars, List.attach_map_val]

/-- Helper: `dumpChars` on an object, with the `attach` map collapsed. -/
theorem dumpChars_obj (kvs : List (String × Json)) :
    dumpChars (.obj kvs) =
      '\x7b' :: (joinCommaSep (kvs.map dumpFieldChars) ++ ['\x7d']) := by
  rw [dumpChars]
  have h : kvs.attach.map
      (fun kv => '"' :: (escString kv.1.1.data ++ ['"']) ++ ':' :: ' ' :: dumpChars kv.1.2)
      = kvs.map dumpFieldChars := List.attach_map_val kvs dumpFieldChars
  rw [h]

/-- Helper: `dumpChars` equations for the flat constructors. -/
theorem dumpChars_null : dumpChars .null = ['n', 'u', 'l', 'l'] := by
  rw [dumpChars]

theorem dumpChars_true : dumpChars (.bool true) = ['t', 'r', 'u', 'e'] := by
  rw [dumpChars]

theorem dumpChars_false : dumpChars (.bool false) = ['f', 'a', 'l', 's', 'e'] := by
  rw [dumpChars]

theorem dumpChars_num (i : Int) : dumpChars (.num i) = intDumpChars i := by
  rw [dumpChars]

theorem dumpChars_str (s : String) :
    dumpChars (.str s) = '"' :: (escString s.data ++ ['"']) := by
  rw [dumpChars]

/-- Helper: the reversed digit rendering starts with a digit. -/
theorem natDumpChars_reverse_head (n : Nat) :
    ∃ c t, (natDumpChars n).reverse = c :: t ∧ c.isDigit = true := by
  obtain ⟨c, t, hct⟩ := List.exists_cons_of_ne_nil
    (by simpa using natDumpChars_ne_nil n :
      (natDumpChars n).reverse ≠ [])
  refine ⟨c, t, hct, ?_⟩
  have : c ∈ (natDumpChars n).reverse := by rw [hct]; simp
  exact natDumpChars_digits n c (List.mem_reverse.mp this)

/-- Helper: the serialization of any value starts with a non-whitespace
character that is not a closing bracket, closing brace or comma. -/
theorem dumpChars_head (x : Json) :
    ∃ c t, dumpChars x = c :: t ∧ isWsChar c = false ∧ c ≠ ']' ∧ c ≠ '\x7d'
      ∧ c ≠ ',' := by
  cases x with
  | null => exact ⟨'n', _, dumpChars_null, by decide, by decide, by decide, by decide⟩
  | bool b =>
    cases b with
    | true => exact ⟨'t', _, dumpChars_true, by decide, by decide, by decide, by decide⟩
    | false => exact ⟨'f', _, dumpChars_false, by decide, by decide, by decide, by decide⟩
  | num i =>
    rw [dumpChars_num, intDumpChars]
    by_cases hi : i < 0
    · exact ⟨'-', _, by rw [if_pos hi], by decide, by decide, by decide, by decide⟩
    · obtain ⟨c, t, hct⟩ := List.exists_cons_of_ne_nil (natDumpChars_ne_nil i.natAbs)
      have hc : c.isDigit = true := natDumpChars_digits i.natAbs c (by rw [hct]; simp)
      obtain ⟨_, _, _, _, _, _, _, h1, h2, h3, _, h4⟩ := digit_not_special hc
      exact ⟨c, t, by rw [if_neg hi, hct], h4, h1, h2, h3⟩
  | str s => exact ⟨'"', _, dumpChars_str s, by decide, by decide, by decide, by decide⟩
  | arr xs => exact ⟨'[', _, dumpChars_arr xs, by decide, by decide, by decide, by decide⟩
  | obj kvs => exact ⟨'\x7b', _, dumpChars_obj kvs, by decide, by decide, by decide, by decide⟩

/-- Helper: the serialization of any value ends with a non-whitespace
character. -/
theorem dumpChars_last (x : Json) :
    ∃ c t, (dumpChars x).reverse = c :: t ∧ isWsChar c = false := by
  cases x with
  | null => exact ⟨'l', _, by rw [dumpChars_null]; rfl, by decide⟩
  | bool b =>
    cases b with
    | true => exact ⟨'e', _, by rw [dumpChars_true]; rfl, by decide⟩
    | false => exact ⟨'e', _, by rw [dumpChars_false]; rfl, by decide⟩
  | num i =>
    rw [dumpChars_num, intDumpChars]
    obtain ⟨c, t, hct, hc⟩ := natDumpChars_reverse_head i.natAbs
    have hws : isWsChar c = false := (digit_not_special hc).2.2.2.2.2.2.2.2.2.2.2
    by_cases hi : i < 0
    · refine ⟨c, t ++ ['-'], ?_, hws⟩
      rw [if_pos hi, List.reverse_cons, hct]
      rfl
    · exact ⟨c, t, by rw [if_neg hi]; exact hct, hws⟩
  | str s =>
    refine ⟨'"', ((escString s.data).reverse ++ ['"']), ?_, by decide⟩
    rw [dumpChars_str]
    simp
  | arr xs =>
    refine ⟨']', (joinCommaSep (xs.map dumpChars)).reverse ++ ['['], ?_, by decide⟩
    rw [dumpChars_arr]
    simp
  | obj kvs =>
    refine ⟨'\x7d', (joinCommaSep (kvs.map dumpFieldChars)).reverse ++ ['\x7b'], ?_, by decide⟩
    rw [dumpChars_obj]
    simp

/-- Helper: serializations are never empty. -/
theorem dumpChars_len_pos (x : Json) : 0 < (dumpChars x).length := by
  obtain ⟨c, t, h, _⟩ := dumpChars_head x
  rw [h]
  simp

/-- Helper: a triple of backticks cannot start at a non-backtick. -/
theorem startsTriple_cons_false {c : Char} (h : c ≠ '`') (l : List Char) :
    startsTriple (c :: l) = false := by
  simp [startsTriple, h]

/-- Helper: whether a backtick triple starts here is unaffected by what
follows a newline. -/
theorem startsTriple_append_newline (l ys : List Char) :
    startsTriple (l ++ '\n' :: ys) = startsTriple (l ++ ['\n']) := by
  rcases l with _ | ⟨a, _ | ⟨b, _ | ⟨c3, rest⟩⟩⟩ <;> simp [startsTriple]

/-- Helper: a trailing newline does not create a backtick triple. -/
theorem startsTriple_append_single (l : List Char) :
    startsTriple (l ++ ['\n']) = startsTriple l := by
  rcases l with _ | ⟨a, _ | ⟨b, _ | ⟨c3, rest⟩⟩⟩ <;> simp [startsTriple]

/-- Helper: a trailing newline does not create a backtick triple anywhere. -/
theorem hasTriple_append_newline (l : List Char) :
    hasTriple (l ++ ['\n']) = hasTriple l := by
  induction l with
  | nil => simp [hasTriple, startsTriple]
  | cons c t ih =>
    rw [List.cons_append, hasTriple, hasTriple, ← List.cons_append,
      startsTriple_append_single, ih]

/-- Helper: with no triple inside the body, the split finds exactly the
explicit closing triple after the terminating newline. -/
theorem splitAtTriple_boundary : ∀ b : List Char, hasTriple (b ++ ['\n']) = false →
    ∀ tail, splitAtTriple (b ++ '\n' :: '`' :: '`' :: '`' :: tail) =
      some (b ++ ['\n'], tail) := by
  intro b
  induction b with
  | nil =>
    intro h tail
    show splitAtTriple ('\n' :: '`' :: '`' :: '`' :: tail) = some (['\n'], tail)
    rw [splitAtTriple, if_neg (by simp [startsTriple_cons_false]),
      splitAtTriple, if_pos (by simp [startsTriple])]
    simp
  | cons c b' ih =>
    intro h tail
    rw [List.cons_append, hasTriple] at h
    obtain ⟨h1, h2⟩ := Bool.or_eq_false_iff.mp h
    rw [List.cons_append, splitAtTriple, if_neg ?hcond, ih h2 tail]
    case hcond =>
      have : startsTriple (c :: (b' ++ '\n' :: '`' :: '`' :: '`' :: tail)) =
          startsTriple (c :: (b' ++ ['\n'])) := by
        rw [← List.cons_append, ← List.cons_append, startsTriple_append_newline]
      rw [this, h1]
      simp
    simp

/-- Helper: trimming the newline-wrapped body recovers the body when it
starts and ends with non-whitespace. -/
theorem trimChars_wrap (d : List Char)
    (hh : ∃ c t, d = c :: t ∧ isWsChar c = false)
    (hl : ∃ c t, d.reverse = c :: t ∧ isWsChar c = false) :
    trimChars ('\n' :: (d ++ ['\n'])) = d := by
  obtain ⟨c1, t1, hd, h1⟩ := hh
  obtain ⟨c2, t2, hrev, h2⟩ := hl
  have step1 : ('\n' :: (d ++ ['\n'])).dropWhile isWsChar = d ++ ['\n'] := by
    rw [List.dropWhile_cons, if_pos (by decide), hd, List.cons_append,
      List.dropWhile_cons, if_neg (by simp [h1])]
  have step2 : (d ++ ['\n']).reverse = '\n' :: d.reverse := by simp
  have step3 : ('\n' :: d.reverse).dropWhile isWsChar = d.reverse := by
    rw [List.dropWhile_cons, if_pos (by decide), hrev, List.dropWhile_cons,
      if_neg (by simp [h2]), ← hrev]
  unfold trimChars
  rw [step1, step2, step3, List.reverse_reverse]

/-- Helper: on a full fenced block whose body contains no backtick triple and
is non-whitespace at both ends, the regex model captures exactly the body. -/
theorem regexFenceGroup_fence (d : List Char) (hnt : hasTriple d = false)
    (hh : ∃ c t, d = c :: t ∧ isWsChar c = false)
    (hl : ∃ c t, d.reverse = c :: t ∧ isWsChar c = false) :
    regexFenceGroup ('`' :: '`' :: '`' :: 'j' :: 's' :: 'o' :: 'n' :: '\n' ::
      (d ++ ['\n', '`', '`', '`'])) = some d := by
  have hb : hasTriple (('\n' :: d) ++ ['\n']) = false := by
    rw [List.cons_append, hasTriple, startsTriple_cons_false (by decide),
      hasTriple_append_newline, hnt]
    rfl
  have hsplit := splitAtTriple_boundary ('\n' :: d) hb []
  rw [regexFenceGroup, if_pos (by simp [startsJsonFence])]
  have hdrop : ('`' :: '`' :: '`' :: 'j' :: 's' :: 'o' :: 'n' :: '\n' ::
      (d ++ ['\n', '`', '`', '`'])).drop 7 =
      ('\n' :: d) ++ '\n' :: '`' :: '`' :: '`' :: ([] : List Char) := by
    simp
  rw [hdrop, hsplit]
  have hb2 : ('\n' :: d) ++ ['\n'] = '\n' :: (d ++ ['\n']) := by simp
  rw [hb2]
  show some (trimChars ('\n' :: (d ++ ['\n']))) = some d
  rw [trimChars_wrap d hh hl]

theorem dumpElemsChars_single (x : Json) : dumpElemsChars [x] = dumpChars x := by
  simp [dumpElemsChars, joinCommaSep]

theorem dumpElemsChars_cons2 (x y : Json) (t : List Json) :
    dumpElemsChars (x :: y :: t) = dumpChars x ++ ',' :: ' ' :: dumpElemsChars (y :: t) := by
  simp [dumpElemsChars, joinCommaSep]

theorem dumpFieldsChars_single (kv : String × Json) :
    dumpFieldsChars [kv] = dumpFieldChars kv := by
  simp [dumpFieldsChars, joinCommaSep]

theorem dumpFieldsChars_cons2 (kv kv2 : String × Json) (t : List (String × Json)) :
    dumpFieldsChars (kv :: kv2 :: t) =
      dumpFieldChars kv ++ ',' :: ' ' :: dumpFieldsChars (kv2 :: t) := by
  simp [dumpFieldsChars, joinCommaSep]

theorem parseVal_arr_branch (f : Nat) (cs X : List Char) (h : skipWs cs = '[' :: X) :
    parseVal (f + 1) cs =
      (match skipWs X with
       | ']' :: r' => some (Json.arr [], r')
       | r' =>
         match parseElems f r' with
         | some (xs, r'') => some (Json.arr xs, r'')
         | none => none) := by
  rw [parseVal, h]
  rfl

theorem parseVal_obj_branch (f : Nat) (cs X : List Char) (h : skipWs cs = '\x7b' :: X) :
    parseVal (f + 1) cs =
      (match skipWs X with
       | '\x7d' :: r' => some (Json.obj [], r')
       | r' =>
         match parseFields f r' with
         | some (kvs, r'') => some (Json.obj kvs, r'')
         | none => none) := by
  rw [parseVal, h]
  rfl

theorem parse_dump_main : ∀ f : Nat,
    (∀ x : Json, (dumpChars x).length ≤ f →
      ∀ ws, (∀ c ∈ ws, isWsChar c = true) →
      ∀ r, noDigitHead r = true →
        parseVal f (ws ++ (dumpChars x ++ r)) = some (x, r))
    ∧ (∀ xs : List Json, xs ≠ [] → (dumpElemsChars xs).length + 1 ≤ f →
      ∀ ws, (∀ c ∈ ws, isWsChar c = true) →
      ∀ r, parseElems f (ws ++ (dumpElemsChars xs ++ (']' :: r))) = some (xs, r))
    ∧ (∀ kvs : List (String × Json), kvs ≠ [] → (dumpFieldsChars kvs).length + 1 ≤ f →
      ∀ ws, (∀ c ∈ ws, isWsChar c = true) →
      ∀ r, parseFields f (ws ++ (dumpFieldsChars kvs ++ ('\x7d' :: r))) = some (kvs, r)) := by
  intro f
  induction f with
  | zero =>
    refine ⟨?_, ?_, ?_⟩
    · intro x hlen
      have := dumpChars_len_pos x
      omega
    · intro xs hne hlen
      omega
    · intro kvs hne hlen
      omega
  | succ f ih =>
    obtain ⟨ihP, ihQ, ihR⟩ := ih
    refine ⟨?_, ?_, ?_⟩
    · -- parseVal
      intro x hlen ws hws r hr
      cases x with
      | null =>
        have hskip : skipWs (ws ++ (dumpChars Json.null ++ r)) =
            'n' :: 'u' :: 'l' :: 'l' :: r := by
          rw [skipWs_ws_append ws hws, dumpChars_null]
          exact skipWs_cons_of_not (by decide) _
        rw [parseVal, hskip]
        simp [stripPre]
      | bool b =>
        cases b with
        | true =>
          have hskip : skipWs (ws ++ (dumpChars (Json.bool true) ++ r)) =
              't' :: 'r' :: 'u' :: 'e' :: r := by
            rw [skipWs_ws_append ws hws, dumpChars_true]
            exact skipWs_cons_of_not (by decide) _
          rw [parseVal, hskip]
          simp [stripPre]
        | false =>
          have hskip : skipWs (ws ++ (dumpChars (Json.bool false) ++ r)) =
              'f' :: 'a' :: 'l' :: 's' :: 'e' :: r := by
            rw [skipWs_ws_append ws hws, dumpChars_false]
            exact skipWs_cons_of_not (by decide) _
          rw [parseVal, hskip]
          simp [stripPre]
      | num i =>
        by_cases hi : i < 0
        · have hd : dumpChars (Json.num i) = '-' :: natDumpChars i.natAbs := by
            rw [dumpChars_num, intDumpChars, if_pos hi]
          have hskip : skipWs (ws ++ (dumpChars (Json.num i) ++ r)) =
              '-' :: (natDumpChars i.natAbs ++ r) := by
            rw [skipWs_ws_append ws hws, hd, List.cons_append]
            exact skipWs_cons_of_not (by decide) _
          rw [parseVal, hskip]
          obtain ⟨c0, t0, hct⟩ :=
            List.exists_cons_of_ne_nil (natDumpChars_ne_nil i.natAbs)
          have htake : takeDigits (c0 :: (t0 ++ r)) = (c0 :: t0, r) := by
            have h := takeDigits_exact _ (natDumpChars_digits i.natAbs) r hr
            rw [hct] at h
            simpa using h
          have hval : digitsVal (c0 :: t0) = i.natAbs := by
            rw [← hct]; exact digitsVal_natDumpChars _
          rw [hct]
          have hneg : -(digitsVal (c0 :: t0) : Int) = i := by
            rw [hval]; omega
          simp [htake, hneg]
        · have hd : dumpChars (Json.num i) = natDumpChars i.natAbs := by
            rw [dumpChars_num, intDumpChars, if_neg hi]
          obtain ⟨c0, t0, hct⟩ :=
            List.exists_cons_of_ne_nil (natDumpChars_ne_nil i.natAbs)
          have hc0 : c0.isDigit = true :=
            natDumpChars_digits i.natAbs c0 (by rw [hct]; simp)
          obtain ⟨hn1, hn2, hn3, hn4, hn5, hn6, hn7, _, _, _, _, hn8⟩ :=
            digit_not_special hc0
          have hskip : skipWs (ws ++ (dumpChars (Json.num i) ++ r)) =
              c0 :: (t0 ++ r) := by
            rw [skipWs_ws_append ws hws, hd, hct, List.cons_append]
            exact skipWs_cons_of_not hn8 _
          rw [parseVal, hskip]
          have htake : takeDigits (c0 :: (t0 ++ r)) = (c0 :: t0, r) := by
            have := takeDigits_exact _ (natDumpChars_digits i.natAbs) r hr
            rw [hct] at this
            simpa using this
          have hval : digitsVal (c0 :: t0) = i.natAbs := by
            rw [← hct]; exact digitsVal_natDumpChars _
          have hpos : ((digitsVal (c0 :: t0) : Int)) = i := by
            rw [hval]; omega
          simp [hn1, hn2, hn3, hn4, hn5, hc0, htake, hpos]
      | str s =>
        have hskip : skipWs (ws ++ (dumpChars (Json.str s) ++ r)) =
            '"' :: ((escString s.data ++ ['"']) ++ r) := by
          rw [skipWs_ws_append ws hws, dumpChars_str, List.cons_append]
          exact skipWs_cons_of_not (by decide) _
        rw [parseVal, hskip]
        have harr : (escString s.data ++ ['"']) ++ r = escString s.data ++ '"' :: r := by
          simp
        rw [harr]
        simp [parseStrBody_esc]
      | arr xs =>
        cases xs with
        | nil =>
          have hskip : skipWs (ws ++ (dumpChars (Json.arr []) ++ r)) =
              '[' :: (']' :: r) := by
            rw [skipWs_ws_append ws hws, dumpChars_arr]
            simp only [List.map_nil]
            show skipWs ('[' :: (']' :: r)) = '[' :: (']' :: r)
            exact skipWs_cons_of_not (by decide) _
          rw [parseVal, hskip]
          have hskip2 : skipWs (']' :: r) = ']' :: r :=
            skipWs_cons_of_not (by decide) _
          simp [hskip2]
        | cons x1 xs' =>
          have hlen' : (dumpElemsChars (x1 :: xs')).length + 1 ≤ f := by
            rw [dumpChars_arr] at hlen
            simp only [List.length_cons, List.length_append, List.length_singleton] at hlen
            show (joinCommaSep ((x1 :: xs').map dumpChars)).length + 1 ≤ f
            omega
          obtain ⟨c0, t0, hct, hcw, hcb, _, _⟩ := dumpChars_head x1
          have helems : ∃ u, dumpElemsChars (x1 :: xs') = c0 :: u := by
            cases xs' with
            | nil => exact ⟨t0, by rw [dumpElemsChars_single, hct]⟩
            | cons x2 xs'' =>
              exact ⟨t0 ++ ',' :: ' ' :: dumpElemsChars (x2 :: xs''),
                by rw [dumpElemsChars_cons2, hct]; rfl⟩
          obtain ⟨u, hu⟩ := helems
          have hskip : skipWs (ws ++ (dumpChars (Json.arr (x1 :: xs')) ++ r)) =
              '[' :: ((dumpElemsChars (x1 :: xs') ++ [']']) ++ r) := by
            rw [skipWs_ws_append ws hws, dumpChars_arr, List.cons_append]
            exact skipWs_cons_of_not (by decide) _
          rw [parseVal_arr_branch f _ _ hskip]
          have hre : (dumpElemsChars (x1 :: xs') ++ [']']) ++ r =
              dumpElemsChars (x1 :: xs') ++ (']' :: r) := by simp
          have hskip2 : skipWs (dumpElemsChars (x1 :: xs') ++ (']' :: r)) =
              c0 :: (u ++ (']' :: r)) := by
            rw [hu]
            simp only [List.cons_append]
            exact skipWs_cons_of_not hcw _
          have hfin := ihQ (x1 :: xs') (by simp) hlen' [] (by simp) r
          rw [List.nil_append, hu] at hfin
          simp only [List.cons_append] at hfin
          rw [hre, hskip2]
          split
          · next r' heq =>
            injection heq with h1 _
            exact absurd h1 hcb
          · rw [hfin]
      | obj kvs =>
        cases kvs with
        | nil =>
          have hskip : skipWs (ws ++ (dumpChars (Json.obj []) ++ r)) =
              '\x7b' :: ('\x7d' :: r) := by
            rw [skipWs_ws_append ws hws, dumpChars_obj]
            simp only [List.map_nil]
            show skipWs ('\x7b' :: ('\x7d' :: r)) = '\x7b' :: ('\x7d' :: r)
            exact skipWs_cons_of_not (by decide) _
          rw [parseVal_obj_branch f _ _ hskip]
          have hskip2 : skipWs ('\x7d' :: r) = '\x7d' :: r :=
            skipWs_cons_of_not (by decide) _
          simp [hskip2]
        | cons kv1 kvs' =>
          have hlen' : (dumpFieldsChars (kv1 :: kvs')).length + 1 ≤ f := by
            rw [dumpChars_obj] at hlen
            simp only [List.length_cons, List.length_append, List.length_singleton] at hlen
            show (joinCommaSep ((kv1 :: kvs').map dumpFieldChars)).length + 1 ≤ f
            omega
          have hfields : ∃ u, dumpFieldsChars (kv1 :: kvs') = '"' :: u := by
            cases kvs' with
            | nil =>
              refine ⟨(escString kv1.1.data ++ ['"']) ++ ':' :: ' ' :: dumpChars kv1.2, ?_⟩
              rw [dumpFieldsChars_single, dumpFieldChars]
              rfl
            | cons kv2 kvs'' =>
              refine ⟨((escString kv1.1.data ++ ['"']) ++ ':' :: ' ' :: dumpChars kv1.2)
                ++ ',' :: ' ' :: dumpFieldsChars (kv2 :: kvs''), ?_⟩
              rw [dumpFieldsChars_cons2, dumpFieldChars]
              rfl
          obtain ⟨u, hu⟩ := hfields
          have hskip : skipWs (ws ++ (dumpChars (Json.obj (kv1 :: kvs')) ++ r)) =
              '\x7b' :: ((dumpFieldsChars (kv1 :: kvs') ++ ['\x7d']) ++ r) := by
            rw [skipWs_ws_append ws hws, dumpChars_obj, List.cons_append]
            exact skipWs_cons_of_not (by decide) _
          rw [parseVal_obj_branch f _ _ hskip]
          have hre : (dumpFieldsChars (kv1 :: kvs') ++ ['\x7d']) ++ r =
              dumpFieldsChars (kv1 :: kvs') ++ ('\x7d' :: r) := by simp
          have hskip2 : skipWs (dumpFieldsChars (kv1 :: kvs') ++ ('\x7d' :: r)) =
              '"' :: (u ++ ('\x7d' :: r)) := by
            rw [hu]
            simp only [List.cons_append]
            exact skipWs_cons_of_not (by decide) _
          have hfin := ihR (kv1 :: kvs') (by simp) hlen' [] (by simp) r
          rw [List.nil_append, hu] at hfin
          simp only [List.cons_append] at hfin
          rw [hre, hskip2]
          split
          · next r' heq =>
            injection heq with h1 _
            exact absurd h1 (by decide)
          · rw [hfin]
    · -- parseElems
      intro xs hne hlen ws hws r
      cases xs with
      | nil => exact absurd rfl hne
      | cons x1 xs' =>
        cases xs' with
        | nil =>
          have hlx : (dumpChars x1).length ≤ f := by
            rw [dumpElemsChars_single] at hlen
            omega
          have hval := ihP x1 hlx ws hws (']' :: r) (by simp [noDigitHead])
          rw [parseElems, dumpElemsChars_single, hval]
          have hskip : skipWs (']' :: r) = ']' :: r :=
            skipWs_cons_of_not (by decide) _
          simp [hskip]
        | cons x2 xs'' =>
          have hlen2 : (dumpElemsChars (x1 :: x2 :: xs'')).length =
              (dumpChars x1).length + 2 + (dumpElemsChars (x2 :: xs'')).length := by
            rw [dumpElemsChars_cons2]
            simp
            omega
          have hlx : (dumpChars x1).length ≤ f := by omega
          have hlrest : (dumpElemsChars (x2 :: xs'')).length + 1 ≤ f := by omega
          have hv := ihP x1 hlx ws hws
            (',' :: ' ' :: (dumpElemsChars (x2 :: xs'') ++ (']' :: r))) (by simp [noDigitHead])
          have hre : ws ++ (dumpElemsChars (x1 :: x2 :: xs'') ++ (']' :: r)) =
              ws ++ (dumpChars x1 ++
                (',' :: ' ' :: (dumpElemsChars (x2 :: xs'') ++ (']' :: r)))) := by
            rw [dumpElemsChars_cons2]
            simp
          rw [parseElems, hre, hv]
          have hskip : skipWs (',' :: ' ' :: (dumpElemsChars (x2 :: xs'') ++ (']' :: r))) =
              ',' :: ' ' :: (dumpElemsChars (x2 :: xs'') ++ (']' :: r)) :=
            skipWs_cons_of_not (by decide) _
          have hrec := ihQ (x2 :: xs'') (by simp) hlrest [' ']
            (by intro c hc; simp at hc; subst hc; decide) r
          simp only [List.singleton_append] at hrec
          simp [hskip, hrec]
    · -- parseFields
      intro kvs hne hlen ws hws r
      cases kvs with
      | nil => exact absurd rfl hne
      | cons kv1 kvs' =>
        obtain ⟨k1, v1⟩ := kv1
        cases kvs' with
        | nil =>
          have hlv : (dumpChars v1).length ≤ f := by
            rw [dumpFieldsChars_single] at hlen
            have : (dumpFieldChars (k1, v1)).length =
                (escString k1.data).length + 4 + (dumpChars v1).length := by
              simp [dumpFieldChars]
              omega
            omega
          have hcs : ws ++ (dumpFieldsChars [(k1, v1)] ++ ('\x7d' :: r)) =
              ws ++ ('"' :: (escString k1.data ++
                ('"' :: (':' :: ' ' :: (dumpChars v1 ++ ('\x7d' :: r)))))) := by
            rw [dumpFieldsChars_single, dumpFieldChars]
            simp
          have hskip : skipWs (ws ++ ('"' :: (escString k1.data ++
              ('"' :: (':' :: ' ' :: (dumpChars v1 ++ ('\x7d' :: r))))))) =
              '"' :: (escString k1.data ++
                ('"' :: (':' :: ' ' :: (dumpChars v1 ++ ('\x7d' :: r))))) := by
            rw [skipWs_ws_append ws hws]
            exact skipWs_cons_of_not (by decide) _
          rw [parseFields, hcs, hskip]
          have hstr := parseStrBody_esc k1.data
            (':' :: ' ' :: (dumpChars v1 ++ ('\x7d' :: r)))
          have hsk2 : skipWs (':' :: ' ' :: (dumpChars v1 ++ ('\x7d' :: r))) =
              ':' :: ' ' :: (dumpChars v1 ++ ('\x7d' :: r)) :=
            skipWs_cons_of_not (by decide) _
          have hv := ihP v1 hlv [' ']
            (by intro c hc; simp at hc; subst hc; decide) ('\x7d' :: r) (by simp [noDigitHead])
          simp only [List.singleton_append] at hv
          have hsk3 : skipWs ('\x7d' :: r) = '\x7d' :: r :=
            skipWs_cons_of_not (by decide) _
          simp [hstr, hsk2, hv, hsk3]
        | cons kv2 kvs'' =>
          have hlen2 : (dumpFieldsChars ((k1, v1) :: kv2 :: kvs'')).length =
              (escString k1.data).length + 6 + (dumpChars v1).length
                + (dumpFieldsChars (kv2 :: kvs'')).length := by
            rw [dumpFieldsChars_cons2]
            simp [dumpFieldChars]
            omega
          have hlv : (dumpChars v1).length ≤ f := by omega
          have hlrest : (dumpFieldsChars (kv2 :: kvs'')).length + 1 ≤ f := by omega
          have hcs : ws ++ (dumpFieldsChars ((k1, v1) :: kv2 :: kvs'') ++ ('\x7d' :: r)) =
              ws ++ ('"' :: (escString k1.data ++
                ('"' :: (':' :: ' ' :: (dumpChars v1 ++
                  (',' :: ' ' :: (dumpFieldsChars (kv2 :: kvs'') ++ ('\x7d' :: r)))))))) := by
            rw [dumpFieldsChars_cons2, dumpFieldChars]
            simp
          have hskip : skipWs (ws ++ ('"' :: (escString k1.data ++
              ('"' :: (':' :: ' ' :: (dumpChars v1 ++
                (',' :: ' ' :: (dumpFieldsChars (kv2 :: kvs'') ++ ('\x7d' :: r))))))))) =
              '"' :: (escString k1.data ++
                ('"' :: (':' :: ' ' :: (dumpChars v1 ++
                  (',' :: ' ' :: (dumpFieldsChars (kv2 :: kvs'') ++ ('\x7d' :: r))))))) := by
            rw [skipWs_ws_append ws hws]
            exact skipWs_cons_of_not (by decide) _
          rw [parseFields, hcs, hskip]
          have hstr := parseStrBody_esc k1.data
            (':' :: ' ' :: (dumpChars v1 ++
              (',' :: ' ' :: (dumpFieldsChars (kv2 :: kvs'') ++ ('\x7d' :: r)))))
          have hsk2 : skipWs (':' :: ' ' :: (dumpChars v1 ++
              (',' :: ' ' :: (dumpFieldsChars (kv2 :: kvs'') ++ ('\x7d' :: r))))) =
              ':' :: ' ' :: (dumpChars v1 ++
                (',' :: ' ' :: (dumpFieldsChars (kv2 :: kvs'') ++ ('\x7d' :: r)))) :=
            skipWs_cons_of_not (by decide) _
          have hv := ihP v1 hlv [' ']
            (by intro c hc; simp at hc; subst hc; decide)
            (',' :: ' ' :: (dumpFieldsChars (kv2 :: kvs'') ++ ('\x7d' :: r))) (by simp [noDigitHead])
          simp only [List.singleton_append] at hv
          have hsk4 : skipWs (',' :: ' ' :: (dumpFieldsChars (kv2 :: kvs'') ++ ('\x7d' :: r))) =
              ',' :: ' ' :: (dumpFieldsChars (kv2 :: kvs'') ++ ('\x7d' :: r)) :=
            skipWs_cons_of_not (by decide) _
          have hrec := ihR (kv2 :: kvs'') (by simp) hlrest [' ']
            (by intro c hc; simp at hc; subst hc; decide) r
          simp only [List.singleton_append] at hrec
          simp [hstr, hsk2, hv, hsk4, hrec]

/-- Helper: `loads` inverts `dumpChars`. -/
theorem loads_dump (x : Json) : loads (dumpChars x) = some x := by
  have h := (parse_dump_main ((dumpChars x).length + 1)).1 x (by omega)
    [] (by simp) [] (by simp [noDigitHead])
  rw [List.nil_append, List.append_nil] at h
  rw [loads, h]
  simp [skipWs]

/-- Helper: trimming is the identity on text with non-whitespace ends. -/
theorem trimChars_id (l : List Char) (c1 : Char) (t1 : List Char)
    (h1 : l = c1 :: t1) (hw1 : isWsChar c1 = false)
    (c2 : Char) (t2 : List Char) (h2 : l.reverse = c2 :: t2)
    (hw2 : isWsChar c2 = false) : trimChars l = l := by
  unfold trimChars
  have s1 : l.dropWhile isWsChar = l := by
    rw [h1, List.dropWhile_cons, if_neg (by simp [hw1])]
  rw [s1, h2, List.dropWhile_cons, if_neg (by simp [hw2]), ← h2, List.reverse_reverse]

/-- C8 (amended): the defensive parse.  (1) For every well-formed structured
object `X` whose serialization contains no triple of backticks, parsing the
```json-fenced serialization returns exactly `X`; (2) every non-string input
is returned as-is; (3) for every string input the function is total and
returns either a parsed structured value or the original string unchanged —
in particular on every malformed string it returns the original string and
never throws. -/
theorem safe_json_parse_spec :
    (∀ x : Json, hasTriple (dumpChars x) = false →
      safe_json_parse (.pyStr (fence (dumps x))) = .pyObj x)
    ∧ (∀ v : PyVal, (∀ s, v ≠ .pyStr s) → safe_json_parse v = v)
    ∧ (∀ s : String, (∃ j, safe_json_parse (.pyStr s) = .pyObj j)
        ∨ safe_json_parse (.pyStr s) = .pyStr s) := by
  refine ⟨?_, ?_, ?_⟩
  · intro x hnt
    have hdata : (fence (dumps x)).data =
        '`' :: '`' :: '`' :: 'j' :: 's' :: 'o' :: 'n' :: '\n' ::
          (dumpChars x ++ ['\n', '`', '`', '`']) := rfl
    have hrev : ((fence (dumps x)).data).reverse =
        '`' :: ('`' :: ('`' :: ('\n' :: ((dumpChars x).reverse ++
          ['\n', 'n', 'o', 's', 'j', '`', '`', '`'])))) := by
      rw [hdata]
      simp
    have htrim : trimChars ((fence (dumps x)).data) = (fence (dumps x)).data :=
      trimChars_id _ _ _ hdata (by decide) _ _ hrev (by decide)
    obtain ⟨ch, th, hh, hwh, _, _, _⟩ := dumpChars_head x
    have hgrp : regexFenceGroup ((fence (dumps x)).data) = some (dumpChars x) := by
      rw [hdata]
      exact regexFenceGroup_fence (dumpChars x) hnt ⟨ch, th, hh, hwh⟩ (dumpChars_last x)
    simp only [safe_json_parse, htrim, hgrp, loads_dump]
  · intro v hv
    cases v with
    | pyStr s => exact absurd rfl (hv s)
    | pyObj j => rfl
    | pyNone => rfl
  · intro s
    simp only [safe_json_parse]
    cases hload : loads
        (match regexFenceGroup (trimChars s.data) with
         | some inner => inner
         | none => trimChars s.data) with
    | some j => exact Or.inl ⟨j, rfl⟩
    | none => exact Or.inr rfl

/-- C8 witness: a concrete fenced object round-trips, a non-string input is
unchanged, and a malformed string comes back unchanged. -/
theorem safe_json_parse_spec_witness :
    safe_json_parse (.pyStr (fence (dumps (Json.obj [("a", Json.num 1)])))) =
      .pyObj (Json.obj [("a", Json.num 1)])
    ∧ safe_json_parse .pyNone = .pyNone
    ∧ ((∃ j, safe_json_parse (.pyStr "not json") = .pyObj j)
        ∨ safe_json_parse (.pyStr "not json") = .pyStr "not json") :=
  ⟨safe_json_parse_spec.1 (Json.obj [("a", Json.num 1)])
    (by
      have h1 : dumpChars (Json.num 1) = ['1'] := by rw [dumpChars_num]; rfl
      rw [dumpChars_obj]
      simp only [List.map_cons, List.map_nil, dumpFieldChars, h1]
      decide),
   safe_json_parse_spec.2.1 .pyNone (by intro s h; cases h),
   safe_json_parse_spec.2.2 "not json"⟩

/-- C8 counterexample: the round-trip `parse (fence (dump X)) = X` fails for
the well-formed object `X = Json.str "```"`: the lazy regex group stops at
the first backtick triple inside the serialized string, the extracted group
`"` fails to parse, and the whole fenced string is returned unchanged rather
than `X`. -/
theorem safe_json_parse_roundtrip_cex :
    safe_json_parse (.pyStr (fence (dumps (Json.str "```")))) =
      .pyStr (fence (dumps (Json.str "```")))
    ∧ safe_json_parse (.pyStr (fence (dumps (Json.str "```")))) ≠
      .pyObj (Json.str "```") := by
  have hds : fence (dumps (Json.str "```")) = "```json\n\"```\"\n```" := by
    rw [dumps, dumpChars_str]
    rfl
  rw [hds]
  constructor
  · rfl
  · intro h
    rw [show safe_json_parse (.pyStr "```json\n\"```\"\n```") =
        .pyStr "```json\n\"```\"\n```" from rfl] at h
    cases h
